import Mathlib

/-!
# Befunge interpreter (`main.go`): shallow embedding and verified properties

The interpreter is a single Go file.  Its helpers are pure functions on a
slice of `int` (the operand stack, top of stack at the END of the slice) and
on a `[25][80]byte` array (the program grid); `main` is a loop over a hand
full of local variables.

Modelling conventions

* Go `int` is taken to be the 64-bit two's-complement type of the usual
  targets.  A stack is a `List Int` whose last element is the top; every
  arithmetic result is passed through `wrapInt`, which reduces it to the
  range `[-2^63, 2^63)` exactly as the machine does.
* A `byte` is a `Fin 256`; the conversion `byte(v)` keeps the low eight bits.
* A Go run-time panic (integer division by zero, index out of range) is a
  value of `Fault`; helpers that can panic return `Except Fault _`.
* Standard output is a `String` carried in the engine state.
* The run is the one without the `-debug` flag.
-/

namespace Befunge

/-! ## Machine integers and bytes -/

/-- Two's-complement reduction of an integer to the 64-bit range of Go's `int`. -/
def wrapInt (v : Int) : Int := (v + 2 ^ 63) % 2 ^ 64 - 2 ^ 63

/-- The values a Go `int` can hold. -/
def IsInt (v : Int) : Prop := -(2 ^ 63) ≤ v ∧ v < 2 ^ 63

instance (v : Int) : Decidable (IsInt v) := by unfold IsInt; infer_instance

/-- A Go `byte`. -/
abbrev Byte := Fin 256

/-- The conversion `byte(v)` of an `int`: the low eight bits. -/
def toByte (v : Int) : Byte := ⟨(v % 256).toNat, by omega⟩

/-- Run-time panics of the Go program. -/
inductive Fault where
  | divideByZero
  | indexOutOfRange
  deriving DecidableEq, Repr

instance {ε α : Type} [DecidableEq ε] [DecidableEq α] : DecidableEq (Except ε α) :=
  fun a b =>
    match a, b with
    | .ok x, .ok y => if h : x = y then isTrue (by rw [h]) else isFalse (fun e => h (by cases e; rfl))
    | .error x, .error y =>
      if h : x = y then isTrue (by rw [h]) else isFalse (fun e => h (by cases e; rfl))
    | .ok _, .error _ => isFalse (fun e => by cases e)
    | .error _, .ok _ => isFalse (fun e => by cases e)

/-! ## The operand stack (`push`, `pop`, `peek`) -/

/-- Function `push` of the source: `append(stack, n)`. -/
def push (stack : List Int) (n : Int) : List Int := stack ++ [n]

/-- Function `peek` of the source: the last element, or 0 for the empty slice. -/
def peek (stack : List Int) : Int :=
  if stack.length = 0 then 0 else stack.getLastD 0

/-- Function `pop` of the source: the slice without its last element together
with `peek`; the empty slice gives a fresh empty slice and 0. -/
def pop (stack : List Int) : List Int × Int :=
  let result := peek stack
  if stack.length = 0 then ([], result) else (stack.dropLast, result)

/-! ## Arithmetic and logic helpers -/

/-- Helper `add` of the source. -/
def add (stack : List Int) : List Int :=
  let (stack, b) := pop stack
  let (stack, a) := pop stack
  push stack (wrapInt (a + b))

/-- Helper `sub` of the source. -/
def sub (stack : List Int) : List Int :=
  let (stack, b) := pop stack
  let (stack, a) := pop stack
  push stack (wrapInt (a - b))

/-- Helper `mul` of the source. -/
def mul (stack : List Int) : List Int :=
  let (stack, b) := pop stack
  let (stack, a) := pop stack
  push stack (wrapInt (a * b))

/-- Helper `div` of the source: Go's `/` truncates toward zero and panics on a
zero divisor; the one overflowing quotient `-2^63 / -1` wraps. -/
def div (stack : List Int) : Except Fault (List Int) :=
  let (stack, b) := pop stack
  let (stack, a) := pop stack
  if b = 0 then .error .divideByZero
  else .ok (push stack (wrapInt (Int.tdiv a b)))

/-- Helper `mod` of the source: Go's `%` is the remainder of the truncating
division and panics on a zero divisor. -/
def mod (stack : List Int) : Except Fault (List Int) :=
  let (stack, b) := pop stack
  let (stack, a) := pop stack
  if b = 0 then .error .divideByZero
  else .ok (push stack (wrapInt (Int.tmod a b)))

/-- Helper `not` of the source. -/
def not (stack : List Int) : List Int :=
  let (stack, a) := pop stack
  let res : Int := if a = 0 then 1 else 0
  push stack res

/-- Helper `condition` of the source. -/
def condition (stack : List Int) : List Int × Int :=
  let (stack, a) := pop stack
  if a = 0 then (stack, 1) else (stack, -1)

/-- Helper `duplicate` of the source. -/
def duplicate (stack : List Int) : List Int :=
  let (stack, n) := pop stack
  let stack := push stack n
  let stack := push stack n
  stack

/-- Helper `swap` of the source. -/
def swap (stack : List Int) : List Int :=
  let (stack, a) := pop stack
  let (stack, b) := pop stack
  let stack := push stack a
  let stack := push stack b
  stack

/-- Helper `compare` of the source. -/
def compare (stack : List Int) : List Int :=
  let (stack, b) := pop stack
  let (stack, a) := pop stack
  let n : Int := if a > b then 1 else 0
  push stack n

/-! ## Instruction pointer stepping -/

/-- Function `step` of the source: add the direction, then wrap the two
sentinel values `80`/`-1` and `25`/`-1`. -/
def step (pcx pcy dirx diry : Int) : Int × Int :=
  let pcx := wrapInt (pcx + dirx)
  let pcx := if pcx = 80 then 0 else if pcx = -1 then 79 else pcx
  let pcy := wrapInt (pcy + diry)
  let pcy := if pcy = 25 then 0 else if pcy = -1 then 24 else pcy
  (pcx, pcy)

/-! ## The program grid (`[25][80]byte`) -/

/-- The program array, indexed row first. -/
abbrev Grid := Fin 25 → Fin 80 → Byte

/-- The array read `program[y][x]` with Go's bounds check. -/
def index (program : Grid) (y x : Int) : Except Fault Byte :=
  if h : (0 ≤ y ∧ y < 25) ∧ (0 ≤ x ∧ x < 80) then
    .ok (program ⟨y.toNat, by omega⟩ ⟨x.toNat, by omega⟩)
  else .error .indexOutOfRange

/-- The array with one element replaced. -/
def setCell (program : Grid) (r : Fin 25) (c : Fin 80) (b : Byte) : Grid :=
  fun r' c' => if r' = r ∧ c' = c then b else program r' c'

/-- The array write `program[y][x] = b` with Go's bounds check. -/
def assign (program : Grid) (y x : Int) (b : Byte) : Except Fault Grid :=
  if h : (0 ≤ y ∧ y < 25) ∧ (0 ≤ x ∧ x < 80) then
    .ok (setCell program ⟨y.toNat, by omega⟩ ⟨x.toNat, by omega⟩ b)
  else .error .indexOutOfRange

/-- Helper `get` of the source. -/
def get (program : Grid) (stack : List Int) : Except Fault (List Int) :=
  let (stack, y) := pop stack
  let (stack, x) := pop stack
  match index program y x with
  | .ok v => .ok (push stack (Int.ofNat v.val))
  | .error e => .error e

/-- Helper `put` of the source. -/
def put (program : Grid) (stack : List Int) : Except Fault (Grid × List Int) :=
  let (stack, y) := pop stack
  let (stack, x) := pop stack
  let (stack, v) := pop stack
  match assign program y x (toByte v) with
  | .ok program => .ok (program, stack)
  | .error e => .error e

/-! ## Text written by `fmt` -/

/-- The verb `%d` on an `int`: the decimal digits, with a leading minus sign
for a negative value. -/
def fmtD (n : Int) : String :=
  match n with
  | Int.ofNat m => Nat.repr m
  | Int.negSucc m => "-" ++ Nat.repr (m + 1)

/-- The verb `%c` on an `int`: the character with that code point, and the
replacement character U+FFFD when the value is not a valid code point. -/
def fmtC (c : Int) : String :=
  if 0 ≤ c ∧ Nat.isValidChar c.toNat then String.singleton (Char.ofNat c.toNat)
  else String.singleton (Char.ofNat 65533)

/-- The sixteen lower-case hexadecimal digits. -/
def lowerhex (d : Nat) : Char :=
  if d < 10 then Char.ofNat (48 + d) else Char.ofNat (87 + d)

/-- Go's `strconv.IsPrint` on a code point below 256. -/
def isPrint (r : Nat) : Bool :=
  (32 ≤ r ∧ r < 127) ∨ (161 ≤ r ∧ r ≤ 255 ∧ r ≠ 173)

/-- The verb `%q` on a `byte`: the single-quoted Go character literal of the
code point, as `strconv.QuoteRune` writes it. -/
def fmtQ (b : Byte) : String :=
  let r := b.val
  let quote := String.singleton (Char.ofNat 39)
  let bs := String.singleton (Char.ofNat 92)
  let body :=
    if r = 39 ∨ r = 92 then bs ++ String.singleton (Char.ofNat r)
    else if isPrint r then String.singleton (Char.ofNat r)
    else if r = 7 then bs ++ "a"
    else if r = 8 then bs ++ "b"
    else if r = 12 then bs ++ "f"
    else if r = 10 then bs ++ "n"
    else if r = 13 then bs ++ "r"
    else if r = 9 then bs ++ "t"
    else if r = 11 then bs ++ "v"
    else if r < 32 ∨ r = 127 then
      bs ++ "x" ++ String.singleton (lowerhex (r / 16)) ++ String.singleton (lowerhex (r % 16))
    else
      bs ++ "u00" ++ String.singleton (lowerhex (r / 16)) ++ String.singleton (lowerhex (r % 16))
  quote ++ body ++ quote

/-! ## Console input -/

/-- The digits of `strconv.ParseUint(s, 10, 64)` read as an unbounded number;
`none` when a byte is not a decimal digit. -/
def parseDigits : List Byte → Nat → Option Nat
  | [], acc => some acc
  | c :: rest, acc =>
    if 48 ≤ c.val ∧ c.val ≤ 57 then parseDigits rest (acc * 10 + (c.val - 48)) else none

/-- The call `strconv.ParseInt(line, 10, 0)`: an optional sign, at least one
decimal digit, nothing else, and a value that fits in 64 bits; `none` stands
for a non-nil error. -/
def parseInt (s : List Byte) : Option Int :=
  match s with
  | [] => none
  | c :: rest =>
    let neg : Bool := c.val = 45
    let body := if c.val = 43 ∨ c.val = 45 then rest else s
    if body.length = 0 then none
    else
      match parseDigits body 0 with
      | none => none
      | some un =>
        if neg = false ∧ un ≥ 2 ^ 63 then none
        else if neg = true ∧ un > 2 ^ 63 then none
        else some (if neg then -(Int.ofNat un) else Int.ofNat un)

/-- Helper `inputNum` of the source.  The argument `line` is what
`reader.ReadString` delivered: `none` for an error, `some l` for the text `l`
followed by the newline.  The result is the text printed and the value
returned. -/
def inputNum (line : Option (List Byte)) (stack : List Int) :
    String × Except String (List Int) :=
  let printed := "Enter a number: "
  match line with
  | none => (printed, .error "Error reading input")
  | some l =>
    match parseInt l with
    | none => (printed, .error "Invalid number")
    | some n => (printed, .ok (push stack n))

/-- Helper `inputChar` of the source, with the same conventions as `inputNum`. -/
def inputChar (line : Option (List Byte)) (stack : List Int) :
    String × Except String (List Int) :=
  let printed := "Enter a character: "
  match line with
  | none => (printed, .error "Error reading input")
  | some [] => (printed, .error "No input")
  | some (c :: rest) =>
    let printed :=
      if rest.length + 1 > 1 then
        printed ++ "Ignoring extra characters, input is " ++ fmtQ c ++ "\n"
      else printed
    (printed, .ok (push stack (Int.ofNat c.val)))

/-! ## Loading the program (`readFile`) -/

/-- The loop `for i, c := range bytes { result[line][i] = c }`, started at
index `i`. -/
def copyLine (result : Grid) (line : Int) : List Byte → Int → Except Fault Grid
  | [], _ => .ok result
  | c :: rest, i =>
    match assign result line i c with
    | .ok result => copyLine result line rest (i + 1)
    | .error e => .error e

/-- The loop `for i := len; i < 80; i++ { result[line][i] = ' ' }`. -/
def padLine (result : Grid) (line : Nat) (len : Nat) : Grid :=
  fun r c => if r.val = line ∧ len ≤ c.val then 32 else result r c

/-- The loop `for scanner.Scan() { ... }` over the lines the scanner yields,
with the running row counter `line`. -/
def scanLoop : List (List Byte) → Nat → Grid → Except Fault (Grid × Nat)
  | [], line, result => .ok (result, line)
  | bytes :: rest, line, result =>
    match copyLine result (Int.ofNat line) bytes 0 with
    | .error e => .error e
    | .ok result =>
      let result := padLine result line bytes.length
      let line := line + 1
      if line ≥ 25 then .ok (result, line) else scanLoop rest line result

/-- The loop `for j := line; j < 25; j++ { for i := 0; i < 80; i++ { ... } }`. -/
def fillRows (result : Grid) (line : Nat) : Grid :=
  fun r c => if line ≤ r.val then 32 else result r c

/-- Function `readFile` of the source once the file is open: `lines` are the
lines `bufio.Scanner` yields, in order.  The array starts zeroed. -/
def readFile (lines : List (List Byte)) : Except Fault Grid :=
  match scanLoop lines 0 (fun _ _ => 0) with
  | .error e => .error e
  | .ok (result, line) => .ok (fillRows result line)

/-! ## The interpreter loop of `main` -/

/-- The local variables of `main` that the loop reads and writes, together
with the text written to standard output so far. -/
structure State where
  program : Grid
  stack : List Int
  pcx : Int
  pcy : Int
  dirx : Int
  diry : Int
  skipping : Bool
  stringing : Bool
  output : String

/-- The two ways `main` prints a message and returns. -/
inductive Failure where
  | invalidCharacter (command : Byte)
  | input (message : String)
  deriving DecidableEq

/-- What one pass through the loop body leads to. -/
inductive Outcome where
  /-- The loop goes on with the next pass. -/
  | next (st : State)
  /-- The instruction `@`: `break loop`. -/
  | halted (st : State)
  /-- A message was printed and `main` returned. -/
  | failed (f : Failure) (st : State)
  /-- The program panicked. -/
  | fault (f : Fault) (st : State)

/-- The variables before the first pass, lines 98 to 108 of the source. -/
def initial (program : Grid) : State :=
  { program := program, stack := [], pcx := 0, pcy := 0, dirx := 1, diry := 0,
    skipping := false, stringing := false, output := "" }

/-- The statement `pcx, pcy = step(pcx, pcy, dirx, diry)`. -/
def advance (st : State) : State :=
  let (pcx, pcy) := step st.pcx st.pcy st.dirx st.diry
  { st with pcx := pcx, pcy := pcy }

/-- Continue with the stack a helper returned, or panic as the helper did. -/
def withStack (st : State) (r : Except Fault (List Int)) : Outcome :=
  match r with
  | .ok stack => .next { st with stack := stack }
  | .error e => .fault e st

/-- Continue with what an input helper printed and returned, or print its
error and return from `main`. -/
def withInput (st : State) (r : String × Except String (List Int)) : Outcome :=
  match r.2 with
  | .ok stack => .next { st with stack := stack, output := st.output ++ r.1 }
  | .error msg =>
    .failed (.input msg) { st with stack := [], output := st.output ++ r.1 ++ msg ++ "\n" }

/-- The `switch command` of the source, lines 135 to 224.  `rnd` is the value
`rand.Intn(4)` returns and `line` what the console delivers, should the
instruction ask for them.  The outcome `next` means the switch fell through to
the `step` call that follows it. -/
def exec (rnd : Nat) (line : Option (List Byte)) (command : Byte) (st : State) : Outcome :=
  let c := command.val
  if 48 ≤ c ∧ c ≤ 57 then                                  -- '0' .. '9'
    .next { st with stack := push st.stack (Int.ofNat (c - 48)) }
  else if c = 43 then .next { st with stack := add st.stack }      -- '+'
  else if c = 45 then .next { st with stack := sub st.stack }      -- '-'
  else if c = 42 then .next { st with stack := mul st.stack }      -- '*'
  else if c = 47 then withStack st (div st.stack)                  -- '/'
  else if c = 37 then withStack st (mod st.stack)                  -- '%'
  else if c = 33 then .next { st with stack := not st.stack }      -- '!'
  else if c = 62 then .next { st with dirx := 1, diry := 0 }       -- '>'
  else if c = 60 then .next { st with dirx := -1, diry := 0 }      -- '<'
  else if c = 118 then .next { st with dirx := 0, diry := 1 }      -- 'v'
  else if c = 94 then .next { st with dirx := 0, diry := -1 }      -- '^'
  else if c = 63 then                                              -- '?'
    if rnd = 0 then .next { st with dirx := 1, diry := 0 }
    else if rnd = 1 then .next { st with dirx := -1, diry := 0 }
    else if rnd = 2 then .next { st with dirx := 0, diry := 1 }
    else .next { st with dirx := 0, diry := -1 }
  else if c = 95 then                                              -- '_'
    let r := condition st.stack
    .next { st with diry := 0, stack := r.1, dirx := r.2 }
  else if c = 124 then                                             -- '|'
    let r := condition st.stack
    .next { st with dirx := 0, stack := r.1, diry := r.2 }
  else if c = 38 then withInput st (inputNum line st.stack)        -- '&'
  else if c = 126 then withInput st (inputChar line st.stack)      -- '~'
  else if c = 46 then                                              -- '.'
    let r := pop st.stack
    .next { st with stack := r.1, output := st.output ++ fmtD r.2 ++ " " }
  else if c = 44 then                                              -- ','
    let r := pop st.stack
    .next { st with stack := r.1, output := st.output ++ fmtC r.2 }
  else if c = 35 then .next { st with skipping := true }           -- '#'
  else if c = 58 then .next { st with stack := duplicate st.stack } -- ':'
  else if c = 36 then .next { st with stack := (pop st.stack).1 }  -- '$'
  else if c = 92 then .next { st with stack := swap st.stack }     -- backslash
  else if c = 96 then .next { st with stack := compare st.stack }  -- backquote
  else if c = 103 then withStack st (get st.program st.stack)      -- 'g'
  else if c = 112 then                                             -- 'p'
    match put st.program st.stack with
    | .ok r => .next { st with program := r.1, stack := r.2 }
    | .error e => .fault e st
  else if c = 34 then .next { st with stringing := true }          -- double quote
  else if c = 64 then .halted st                                   -- '@'
  else if c = 32 then .next st                                     -- ' '
  else
    .failed (.invalidCharacter command)
      { st with output := st.output ++ "Invalid character: " ++ fmtQ command ++ "\n" }

/-- One pass through the body of the `for` loop, lines 122 to 227. -/
def cycle (rnd : Nat) (line : Option (List Byte)) (st : State) : Outcome :=
  if st.skipping then
    .next (advance { st with skipping := false })
  else
    match index st.program st.pcy st.pcx with
    | .error e => .fault e st
    | .ok command =>
      if st.stringing then
        if command.val = 34 then .next (advance { st with stringing := false })
        else .next (advance { st with stack := push st.stack (Int.ofNat command.val) })
      else
        match exec rnd line command st with
        | .next st => .next (advance st)
        | o => o

/-- The loop run for at most `fuel` passes.  Pass number `k` of the run may
consult `rnd k` and `line k`.  The outcome `next` means the fuel ran out with
the loop still going. -/
def run (rnd : Nat → Nat) (line : Nat → Option (List Byte)) : Nat → State → Outcome
  | 0, st => .next st
  | fuel + 1, st =>
    match cycle (rnd 0) (line 0) st with
    | .next st => run (fun k => rnd (k + 1)) (fun k => line (k + 1)) fuel st
    | o => o

/-- Function `main` from the successful `readFile` on, for at most `fuel`
passes of the loop; a panic while loading has written nothing yet. -/
def main (lines : List (List Byte)) (rnd : Nat → Nat) (line : Nat → Option (List Byte))
    (fuel : Nat) : Outcome :=
  match readFile lines with
  | .error e => .fault e (initial (fun _ _ => 0))
  | .ok program => run rnd line fuel (initial program)

/-- The text written to standard output. -/
def Outcome.output : Outcome → String
  | .next st => st.output
  | .halted st => st.output
  | .failed _ st => st.output
  | .fault _ st => st.output

/-- The loop was left through `break loop`. -/
def Outcome.isHalted : Outcome → Bool
  | .halted _ => true
  | _ => false

/-- Mode `Normal` of the specification: neither flag is set. -/
def State.isNormal (st : State) : Prop := st.skipping = false ∧ st.stringing = false

/-- Mode `StringMode` of the specification: `stringing` is set, `skipping` is not. -/
def State.isStringMode (st : State) : Prop := st.skipping = false ∧ st.stringing = true

/-- Mode `SkipOne` of the specification: `skipping` is set. -/
def State.isSkipOne (st : State) : Prop := st.skipping = true

/-! ## Vocabulary of the statements -/

/-- The reading of a stack by a two-operand instruction: `b` is the value
popped first (the top), `a` the value popped second, `rest` what remains; an
operand missing from a short stack reads as 0. -/
def Operands (s rest : List Int) (a b : Int) : Prop :=
  s = rest ++ [a, b] ∨ (s = [b] ∧ rest = [] ∧ a = 0) ∨ (s = [] ∧ rest = [] ∧ a = 0 ∧ b = 0)

/-- The stack after `n` successive calls of `pop`, and the values those calls
returned, the first call first. -/
def popN : Nat → List Int → List Int × List Int
  | 0, s => (s, [])
  | n + 1, s =>
    let r := pop s
    let q := popN n r.1
    (q.1, r.2 :: q.2)

instance (s rest : List Int) (a b : Int) : Decidable (Operands s rest a b) := by
  unfold Operands
  infer_instance

instance (st : State) : Decidable st.isNormal := by
  unfold State.isNormal
  infer_instance

instance (st : State) : Decidable st.isStringMode := by
  unfold State.isStringMode
  infer_instance

/-- The state an outcome carries: the variables at the moment the pass ended. -/
def Outcome.state : Outcome → State
  | .next st => st
  | .halted st => st
  | .failed _ st => st
  | .fault _ st => st

/-- The pass ended in the message `Invalid character: ...`. -/
def Outcome.isInvalidCharacter : Outcome → Bool
  | .failed (.invalidCharacter _) _ => true
  | _ => false

/-- The position after `n` successive calls of `step` in the direction
`(dirx, diry)`. -/
def stepN (dirx diry : Int) : Nat → Int × Int → Int × Int
  | 0, p => p
  | n + 1, p => stepN dirx diry n (step p.1 p.2 dirx diry)

/-- The character codes of the instruction table of the specification: the
digits `0` to `9`, then `+ - * / % !`, the backquote, `> < v ^ ? _ | :`, the
backslash, `$ & ~ . , # g p`, the double quote, `@` and the space. -/
def instructionTable : List Nat :=
  [48, 49, 50, 51, 52, 53, 54, 55, 56, 57,
   43, 45, 42, 47, 37, 33, 96, 62, 60, 118, 94, 63, 95, 124, 58,
   92, 36, 38, 126, 46, 44, 35, 103, 112, 34, 64, 32]

/-- The position is on the canvas. -/
def State.onCanvas (st : State) : Prop :=
  (0 ≤ st.pcx ∧ st.pcx < 80) ∧ (0 ≤ st.pcy ∧ st.pcy < 25)

/-- The direction is one of the four unit vectors east, west, south, north. -/
def State.cardinal (st : State) : Prop :=
  (st.dirx = 1 ∧ st.diry = 0) ∨ (st.dirx = -1 ∧ st.diry = 0) ∨
  (st.dirx = 0 ∧ st.diry = 1) ∨ (st.dirx = 0 ∧ st.diry = -1)

/-- The failure an outcome reports to the host, if it is one. -/
def Outcome.failure : Outcome → Option Failure
  | .failed f _ => some f
  | _ => none

/-- The invariant of the instruction pointer: the position is on the canvas
and the direction is cardinal. -/
def State.wellFormed (st : State) : Prop := st.onCanvas ∧ st.cardinal

/-- The invariant of the instruction pointer, for the state an outcome carries. -/
def Outcome.wellFormed (o : Outcome) : Prop := o.state.wellFormed

/-- The helper panicked instead of returning. -/
def Faults {α : Type} (r : Except Fault α) : Prop := ∃ e, r = .error e

/-- The grid the specification describes for a program text: the cell at row
`r`, column `c` holds byte `c` of line `r` when there is such a byte, and the
space code 32 otherwise. -/
def specGrid (lines : List (List Byte)) : Grid :=
  fun r c => (lines.getD r.val []).getD c.val 32

/-- The pass ended in a panic. -/
def Outcome.isFault : Outcome → Bool
  | .fault _ _ => true
  | _ => false

/-- The largest Go `int`. -/
def maxInt : Int := 9223372036854775807

/-- The smallest Go `int`. -/
def minInt : Int := -9223372036854775808

/-! ## Basic facts about the stack -/

theorem pop_nil : pop [] = ([], 0) := rfl

theorem pop_concat (t : List Int) (a : Int) : pop (t ++ [a]) = (t, a) := by
  simp [pop, peek]

theorem wrapInt_of_isInt {v : Int} (h : IsInt v) : wrapInt v = v := by
  unfold IsInt at h
  unfold wrapInt
  omega

theorem isInt_wrapInt (v : Int) : IsInt (wrapInt v) := by
  unfold IsInt wrapInt
  omega

theorem isInt_tmod {a : Int} (b : Int) (h : IsInt a) : IsInt (Int.tmod a b) := by
  unfold IsInt at *
  rcases a with m | m <;> rcases b with n | n
  · have := Nat.mod_le m n
    simp only [Int.tmod, Int.ofNat_eq_coe, Nat.succ_eq_add_one] at *
    omega
  · have := Nat.mod_le m (n + 1)
    simp only [Int.tmod, Int.ofNat_eq_coe, Nat.succ_eq_add_one] at *
    omega
  · have := Nat.mod_le (m + 1) n
    simp only [Int.tmod, Int.ofNat_eq_coe, Int.negSucc_eq, Nat.succ_eq_add_one] at *
    omega
  · have := Nat.mod_le (m + 1) (n + 1)
    simp only [Int.tmod, Int.ofNat_eq_coe, Int.negSucc_eq, Nat.succ_eq_add_one] at *
    omega

theorem pop_of_operands {s rest : List Int} {a b : Int} (h : Operands s rest a b) :
    ∃ mid, pop s = (mid, b) ∧ pop mid = (rest, a) := by
  rcases h with h | ⟨h, hr, ha⟩ | ⟨h, hr, ha, hb⟩
  · subst h
    have e : rest ++ [a, b] = (rest ++ [a]) ++ [b] := by simp
    exact ⟨rest ++ [a], by rw [e, pop_concat], pop_concat rest a⟩
  · subst h hr ha
    exact ⟨[], rfl, rfl⟩
  · subst h hr ha hb
    exact ⟨[], rfl, rfl⟩

/-! ## C1: the two-operand instructions -/

/-- C1, as stated, fails: with the exact sum, difference, product or quotient
in place of the machine result, `add`, `sub`, `mul` and `div` each disagree
with the claim on a stack of two Go integers, because the result leaves the
64-bit range and wraps around. -/
theorem two_operand_exact_counterexample :
    (Operands [maxInt, 1] [] maxInt 1 ∧ IsInt maxInt ∧ IsInt 1 ∧
      add [maxInt, 1] = [minInt] ∧ add [maxInt, 1] ≠ push [] (maxInt + 1)) ∧
    (Operands [minInt, 1] [] minInt 1 ∧ IsInt minInt ∧ IsInt 1 ∧
      sub [minInt, 1] = [maxInt] ∧ sub [minInt, 1] ≠ push [] (minInt - 1)) ∧
    (Operands [maxInt, 2] [] maxInt 2 ∧ IsInt maxInt ∧ IsInt 2 ∧
      mul [maxInt, 2] = [-2] ∧ mul [maxInt, 2] ≠ push [] (maxInt * 2)) ∧
    (Operands [minInt, -1] [] minInt (-1) ∧ IsInt minInt ∧ IsInt (-1) ∧
      div [minInt, -1] = .ok [minInt] ∧
      div [minInt, -1] ≠ .ok (push [] (Int.tdiv minInt (-1)))) := by
  decide

/-- C1, amended: for every stack of Go integers read as `rest`, `a`, `b`
(`b` on top, missing operands 0), each helper returns `rest` with exactly one
value pushed.  For `add`, `sub`, `mul`, `div` (with `b ≠ 0`) it is the sum,
difference, product, truncating quotient reduced to the 64-bit two's-complement
range, and the exact value whenever that value is a Go integer; for `mod`
(with `b ≠ 0`) it is the exact remainder of the truncating division; for
`compare` it is 1 if `a > b` and 0 otherwise. -/
theorem two_operand_helpers (s rest : List Int) (a b : Int) (h : Operands s rest a b)
    (ha : IsInt a) :
    add s = push rest (wrapInt (a + b)) ∧
    sub s = push rest (wrapInt (a - b)) ∧
    mul s = push rest (wrapInt (a * b)) ∧
    (b ≠ 0 → div s = .ok (push rest (wrapInt (Int.tdiv a b)))) ∧
    (b ≠ 0 → mod s = .ok (push rest (Int.tmod a b))) ∧
    compare s = push rest (if a > b then 1 else 0) ∧
    (IsInt (a + b) → add s = push rest (a + b)) ∧
    (IsInt (a - b) → sub s = push rest (a - b)) ∧
    (IsInt (a * b) → mul s = push rest (a * b)) ∧
    (b ≠ 0 → IsInt (Int.tdiv a b) → div s = .ok (push rest (Int.tdiv a b))) := by
  obtain ⟨mid, h1, h2⟩ := pop_of_operands h
  have hm : wrapInt (Int.tmod a b) = Int.tmod a b := wrapInt_of_isInt (isInt_tmod b ha)
  refine ⟨?_, ?_, ?_, ?_, ?_, ?_, ?_, ?_, ?_, ?_⟩
  · simp [add, h1, h2]
  · simp [sub, h1, h2]
  · simp [mul, h1, h2]
  · intro hb
    simp [div, h1, h2, hb]
  · intro hb
    simp [mod, h1, h2, hb, hm]
  · simp [compare, h1, h2]
  · intro hv
    simp [add, h1, h2, wrapInt_of_isInt hv]
  · intro hv
    simp [sub, h1, h2, wrapInt_of_isInt hv]
  · intro hv
    simp [mul, h1, h2, wrapInt_of_isInt hv]
  · intro hb hv
    simp [div, h1, h2, hb, wrapInt_of_isInt hv]

/-- The amended C1 on the stack `[5, 7, -2]`: every helper leaves `[5, v]`. -/
theorem two_operand_helpers_witness :
    Operands [5, 7, -2] [5] 7 (-2) ∧ IsInt 7 ∧
    add [5, 7, -2] = [5, 5] ∧ sub [5, 7, -2] = [5, 9] ∧ mul [5, 7, -2] = [5, -14] ∧
    div [5, 7, -2] = .ok [5, -3] ∧ mod [5, 7, -2] = .ok [5, 1] ∧
    compare [5, 7, -2] = [5, 1] := by
  have h := two_operand_helpers [5, 7, -2] [5] 7 (-2) (by decide) (by decide)
  refine ⟨by decide, by decide, ?_, ?_, ?_, ?_, ?_, ?_⟩
  · exact (h.2.2.2.2.2.2.1 (by decide)).trans (by decide)
  · exact (h.2.2.2.2.2.2.2.1 (by decide)).trans (by decide)
  · exact (h.2.2.2.2.2.2.2.2.1 (by decide)).trans (by decide)
  · exact (h.2.2.2.2.2.2.2.2.2 (by decide) (by decide)).trans (by decide)
  · exact (h.2.2.2.2.1 (by decide)).trans (by decide)
  · exact h.2.2.2.2.2.1.trans (by decide)

/-! ## C2 and C3: `pop` and `push` -/

theorem popN_nil (n : Nat) : popN n [] = ([], List.replicate n 0) := by
  induction n with
  | zero => rfl
  | succ k ih => simp [popN, pop_nil, ih, List.replicate_succ]

/-- C2: `pop` on the empty stack returns 0 and the empty stack, and for every
`n`, `n` successive pops from the empty stack return `n` zeros and leave the
stack empty; `pop` is a total function, so it never fails. -/
theorem pop_empty_repeated (n : Nat) :
    pop [] = ([], 0) ∧ popN n [] = ([], List.replicate n 0) :=
  ⟨rfl, popN_nil n⟩

theorem popN_pushAll (s : List Int) (vs : List Int) :
    popN vs.length (vs.foldl push s) = (s, vs.reverse) := by
  induction vs using List.reverseRecOn with
  | nil => rfl
  | append_singleton ws w ih =>
    have e : push (List.foldl push s ws) w = List.foldl push s ws ++ [w] := rfl
    simp only [List.foldl_append, List.foldl_cons, List.foldl_nil, List.length_append,
      List.length_singleton, popN, e, pop_concat, ih]
    simp

/-- C3: `pop` after `push` returns the pushed value and the original stack;
pushing any sequence of values in order and popping as many times returns
those values in reverse order and the original stack. -/
theorem push_pop_lifo (s : List Int) (n : Int) (vs : List Int) :
    pop (push s n) = (s, n) ∧ popN vs.length (vs.foldl push s) = (s, vs.reverse) :=
  ⟨pop_concat s n, popN_pushAll s vs⟩

/-! ## C4: stepping on the torus -/

/-- C4: from a position on the canvas and in a cardinal direction, `step` adds
the direction modulo 80 and 25 with non-negative remainders; east of column 79
is column 0, west of column 0 is column 79, south of row 24 is row 0 and north
of row 0 is row 24. -/
theorem step_toroidal (x y dx dy : Int) (hx : 0 ≤ x ∧ x < 80) (hy : 0 ≤ y ∧ y < 25)
    (hd : (dx = 1 ∧ dy = 0) ∨ (dx = -1 ∧ dy = 0) ∨ (dx = 0 ∧ dy = 1) ∨ (dx = 0 ∧ dy = -1)) :
    step x y dx dy = ((x + dx) % 80, (y + dy) % 25) ∧
    step 79 y 1 0 = (0, y) ∧ step 0 y (-1) 0 = (79, y) ∧
    step x 24 0 1 = (x, 0) ∧ step x 0 0 (-1) = (x, 24) := by
  unfold step wrapInt
  simp only [Prod.mk.injEq]
  refine ⟨⟨?_, ?_⟩, ⟨?_, ?_⟩, ⟨?_, ?_⟩, ⟨?_, ?_⟩, ⟨?_, ?_⟩⟩ <;> split_ifs <;> omega

/-- C4 at the position (0, 3) heading west. -/
theorem step_toroidal_witness :
    step 0 3 (-1) 0 = ((0 + -1) % 80, (3 + 0) % 25) ∧
    step 79 3 1 0 = (0, 3) ∧ step 0 3 (-1) 0 = (79, 3) ∧
    step 0 24 0 1 = (0, 0) ∧ step 0 0 0 (-1) = (0, 24) :=
  step_toroidal 0 3 (-1) 0 (by decide) (by decide) (by decide)

/-! ## C5: `put` followed by `get` -/

theorem index_assign (program : Grid) (y x : Int) (b : Byte)
    (hx : 0 ≤ x ∧ x < 80) (hy : 0 ≤ y ∧ y < 25) :
    ∃ program', assign program y x b = .ok program' ∧ index program' y x = .ok b := by
  have h : (0 ≤ y ∧ y < 25) ∧ (0 ≤ x ∧ x < 80) := ⟨hy, hx⟩
  refine ⟨_, dif_pos h, ?_⟩
  unfold index
  rw [dif_pos h]
  simp [setCell]

theorem pop_three (s : List Int) (v x y : Int) :
    pop (s ++ [v, x, y]) = (s ++ [v, x], y) ∧ pop (s ++ [v, x]) = (s ++ [v], x) := by
  have e1 : s ++ [v, x, y] = (s ++ [v, x]) ++ [y] := by simp
  have e2 : s ++ [v, x] = (s ++ [v]) ++ [x] := by simp
  exact ⟨by rw [e1, pop_concat], by rw [e2, pop_concat]⟩

/-- C5: on any grid and stack, with `v`, `x`, `y` pushed (`y` on top) and
`(x, y)` on the canvas, `put` succeeds, returns the stack below the three
operands and stores `byte(v)` at row `y`, column `x`; `get` on the resulting
grid with `x`, `y` pushed then pushes exactly `v mod 256`, a value from 0 to
255. -/
theorem put_get_roundtrip (program : Grid) (s : List Int) (v x y : Int)
    (hx : 0 ≤ x ∧ x < 80) (hy : 0 ≤ y ∧ y < 25) :
    ∃ program', put program (s ++ [v, x, y]) = .ok (program', s) ∧
      index program' y x = .ok (toByte v) ∧
      get program' (s ++ [x, y]) = .ok (s ++ [v % 256]) ∧
      0 ≤ v % 256 ∧ v % 256 < 256 := by
  obtain ⟨program', h1, h2⟩ := index_assign program y x (toByte v) hx hy
  obtain ⟨p1, p2⟩ := pop_three s v x y
  have p3 : pop (s ++ [x, y]) = (s ++ [x], y) := by
    have e : s ++ [x, y] = (s ++ [x]) ++ [y] := by simp
    rw [e, pop_concat]
  have hv : Int.ofNat (toByte v).val = v % 256 := by
    simp only [toByte, Int.ofNat_eq_coe]
    omega
  refine ⟨program', ?_, h2, ?_, by omega, by omega⟩
  · simp [put, p1, p2, pop_concat, h1]
  · simp only [get, p3, pop_concat, h2, hv, push]

/-- C5 on the blank grid: the value 321 written at column 79 of row 24 reads
back as 65. -/
theorem put_get_roundtrip_witness :
    ∃ program', put (fun _ _ => 32) ([7] ++ [321, 79, 24]) = .ok (program', [7]) ∧
      index program' 24 79 = .ok (toByte 321) ∧
      get program' ([7] ++ [79, 24]) = .ok ([7] ++ [321 % 256]) ∧
      (0 : Int) ≤ 321 % 256 ∧ (321 : Int) % 256 < 256 :=
  put_get_roundtrip (fun _ _ => 32) [7] 321 79 24 (by decide) (by decide)

/-! ## The loop body, case by case -/

theorem cycle_skipping (rnd : Nat) (line : Option (List Byte)) (st : State)
    (h : st.skipping = true) :
    cycle rnd line st = .next (advance { st with skipping := false }) := by
  simp [cycle, h]

theorem cycle_stringing (rnd : Nat) (line : Option (List Byte)) (st : State) (c : Byte)
    (h1 : st.skipping = false) (h2 : st.stringing = true)
    (hc : index st.program st.pcy st.pcx = .ok c) :
    cycle rnd line st =
      if c.val = 34 then .next (advance { st with stringing := false })
      else .next (advance { st with stack := push st.stack (Int.ofNat c.val) }) := by
  simp [cycle, h1, h2, hc]

theorem cycle_normal (rnd : Nat) (line : Option (List Byte)) (st : State) (c : Byte)
    (h1 : st.skipping = false) (h2 : st.stringing = false)
    (hc : index st.program st.pcy st.pcx = .ok c) :
    cycle rnd line st =
      match exec rnd line c st with
      | .next st => .next (advance st)
      | o => o := by
  simp [cycle, h1, h2, hc]

theorem exec_trampoline (rnd : Nat) (line : Option (List Byte)) (st : State) :
    exec rnd line 35 st = .next { st with skipping := true } := rfl

theorem exec_underscore (rnd : Nat) (line : Option (List Byte)) (st : State) :
    exec rnd line 95 st =
      .next { st with diry := 0, stack := (condition st.stack).1,
                      dirx := (condition st.stack).2 } := rfl

theorem exec_bar (rnd : Nat) (line : Option (List Byte)) (st : State) :
    exec rnd line 124 st =
      .next { st with dirx := 0, stack := (condition st.stack).1,
                      diry := (condition st.stack).2 } := rfl

/-! ## C6, C7, C8: the modes and the two conditionals -/

/-- C6: from a state in Normal mode whose current cell is `#`, the next two
passes of the loop both go on, leave the stack, the grid, the direction and the
output as they were, end in Normal mode, and move the position by two calls of
`step` in the current direction; the cell one step ahead is never read, so
this holds whatever it contains. -/
theorem trampoline_skips (st : State) (rnd : Nat → Nat) (line : Nat → Option (List Byte))
    (hn : st.isNormal) (hc : index st.program st.pcy st.pcx = .ok 35) :
    ∃ st2, run rnd line 2 st = .next st2 ∧
      st2.stack = st.stack ∧ st2.program = st.program ∧
      st2.dirx = st.dirx ∧ st2.diry = st.diry ∧ st2.output = st.output ∧ st2.isNormal ∧
      (st2.pcx, st2.pcy) =
        step (step st.pcx st.pcy st.dirx st.diry).1 (step st.pcx st.pcy st.dirx st.diry).2
          st.dirx st.diry := by
  obtain ⟨h1, h2⟩ := hn
  have hrun : run rnd line 2 st =
      .next (advance { advance { st with skipping := true } with skipping := false }) := by
    simp only [run]
    rw [cycle_normal _ _ st 35 h1 h2 hc, exec_trampoline]
    simp only []
    rw [cycle_skipping _ _ _ rfl]
  refine ⟨_, hrun, ?_⟩
  simp [advance, State.isNormal, h2]

/-- C6 on the program `#@`: the `@` one step ahead is skipped. -/
theorem trampoline_skips_witness :
    ∃ st2, run (fun _ => 0) (fun _ => none) 2 (initial (fun _ c => if c.val = 0 then 35 else 64))
        = .next st2 ∧
      st2.stack = [] ∧ st2.program = (fun _ c => if c.val = 0 then 35 else 64) ∧
      st2.dirx = 1 ∧ st2.diry = 0 ∧ st2.output = "" ∧ st2.isNormal ∧
      (st2.pcx, st2.pcy) = step (step 0 0 1 0).1 (step 0 0 1 0).2 1 0 :=
  trampoline_skips (initial (fun _ c => if c.val = 0 then 35 else 64)) (fun _ => 0)
    (fun _ => none) (by decide) (by decide)

/-- C7: in StringMode, with `c` the cell under the IP, the pass goes on (it
neither halts nor fails), leaves the grid, the direction and the output as
they were and advances the position by one `step`.  If `c` is the double quote
the stack is unchanged and the mode is Normal; otherwise exactly the code of
`c` is pushed and the mode stays StringMode. -/
theorem string_mode_cycle (st : State) (rnd : Nat) (line : Option (List Byte)) (c : Byte)
    (hs : st.isStringMode) (hc : index st.program st.pcy st.pcx = .ok c) :
    ∃ st', cycle rnd line st = .next st' ∧
      st'.program = st.program ∧ st'.dirx = st.dirx ∧ st'.diry = st.diry ∧
      st'.output = st.output ∧
      (st'.pcx, st'.pcy) = step st.pcx st.pcy st.dirx st.diry ∧
      (c.val = 34 → st'.stack = st.stack ∧ st'.isNormal) ∧
      (c.val ≠ 34 → st'.stack = st.stack ++ [Int.ofNat c.val] ∧ st'.isStringMode) := by
  obtain ⟨h1, h2⟩ := hs
  rw [cycle_stringing rnd line st c h1 h2 hc]
  by_cases h : c.val = 34
  · rw [if_pos h]
    exact ⟨_, rfl, by simp [advance, State.isNormal, State.isStringMode, h1, h]⟩
  · rw [if_neg h]
    exact ⟨_, rfl, by simp [advance, State.isNormal, State.isStringMode, h1, h2, h, push]⟩

/-- C7 on a grid full of `@`, in StringMode at the origin: the `@` is pushed
as the number 64, the mode stays StringMode and nothing halts. -/
theorem string_mode_cycle_witness :
    ∃ st', cycle 0 none { initial (fun _ _ => 64) with stringing := true } = .next st' ∧
      st'.stack = [64] ∧ st'.isStringMode ∧ (st'.pcx, st'.pcy) = (1, 0) := by
  obtain ⟨st', h, _, _, _, _, hp, _, hne⟩ :=
    string_mode_cycle { initial (fun _ _ => 64) with stringing := true } 0 none 64
      (by decide) (by decide)
  exact ⟨st', h, (hne (by decide)).1, (hne (by decide)).2, hp.trans (by decide)⟩

/-- C8: in Normal mode, with `a` the top of the stack above `t` (or `a = 0`
and `t` empty when the stack is empty) and whatever the direction was: on the
cell `_` the pass pops `a` and leaves the direction east `(1, 0)` if `a = 0`
and west `(-1, 0)` otherwise; on the cell `|` it pops `a` and leaves the
direction south `(0, 1)` if `a = 0` and north `(0, -1)` otherwise. -/
theorem conditional_directions (st : State) (rnd : Nat) (line : Option (List Byte))
    (t : List Int) (a : Int) (hn : st.isNormal)
    (hs : st.stack = t ++ [a] ∨ (st.stack = [] ∧ t = [] ∧ a = 0)) :
    condition st.stack = (t, if a = 0 then 1 else -1) ∧
    (index st.program st.pcy st.pcx = .ok 95 →
      ∃ st', cycle rnd line st = .next st' ∧ st'.stack = t ∧
        st'.dirx = (if a = 0 then 1 else -1) ∧ st'.diry = 0) ∧
    (index st.program st.pcy st.pcx = .ok 124 →
      ∃ st', cycle rnd line st = .next st' ∧ st'.stack = t ∧
        st'.dirx = 0 ∧ st'.diry = (if a = 0 then 1 else -1)) := by
  obtain ⟨h1, h2⟩ := hn
  have hp : pop st.stack = (t, a) := by
    rcases hs with h | ⟨h, ht, ha⟩
    · rw [h, pop_concat]
    · rw [h, ht, ha, pop_nil]
  have hcond : condition st.stack = (t, if a = 0 then 1 else -1) := by
    unfold condition
    rw [hp]
    by_cases h : a = 0 <;> simp [h]
  refine ⟨hcond, ?_, ?_⟩
  · intro hc
    rw [cycle_normal rnd line st 95 h1 h2 hc, exec_underscore, hcond]
    exact ⟨_, rfl, by simp [advance]⟩
  · intro hc
    rw [cycle_normal rnd line st 124 h1 h2 hc, exec_bar, hcond]
    exact ⟨_, rfl, by simp [advance]⟩

/-- C8 heading south with the stack `[4, 7]`: on a grid full of `_` the 7 is
popped and the direction becomes west, on a grid full of `|` it becomes north. -/
theorem conditional_directions_witness :
    (∃ st', cycle 0 none { initial (fun _ _ => 95) with stack := [4, 7], dirx := 0, diry := 1 }
        = .next st' ∧ st'.stack = [4] ∧ st'.dirx = -1 ∧ st'.diry = 0) ∧
    (∃ st', cycle 0 none { initial (fun _ _ => 124) with stack := [4, 7], dirx := 0, diry := 1 }
        = .next st' ∧ st'.stack = [4] ∧ st'.dirx = 0 ∧ st'.diry = -1) := by
  have h1 := (conditional_directions
    { initial (fun _ _ => 95) with stack := [4, 7], dirx := 0, diry := 1 } 0 none [4] 7
    (by decide) (Or.inl rfl)).2.1 (by decide)
  have h2 := (conditional_directions
    { initial (fun _ _ => 124) with stack := [4, 7], dirx := 0, diry := 1 } 0 none [4] 7
    (by decide) (Or.inl rfl)).2.2 (by decide)
  obtain ⟨s1, e1, a1, b1, c1⟩ := h1
  obtain ⟨s2, e2, a2, b2, c2⟩ := h2
  exact ⟨⟨s1, e1, a1, b1.trans (by decide), c1⟩, ⟨s2, e2, a2, b2, c2.trans (by decide)⟩⟩

/-! ## C9 and C10: two one-line programs -/

/-- C9: the program `12-.@` (bytes 49 50 45 46 64), loaded by `readFile` and
run from the initial state, halts at `@` on the fifth pass whatever the host
supplies, having written exactly `-1 ` (minus, one, space); more fuel changes
nothing, and four passes are not enough. -/
theorem program_sub_outputs (rnd : Nat → Nat) (line : Nat → Option (List Byte)) (k : Nat) :
    ∃ st, main [[49, 50, 45, 46, 64]] rnd line (k + 5) = .halted st ∧
      st.output = "-1 " ∧ st.stack = [] ∧ (st.pcx, st.pcy) = (4, 0) ∧
      (main [[49, 50, 45, 46, 64]] rnd line 4).isHalted = false :=
  ⟨_, rfl, by decide, by decide, by decide, rfl⟩

/-- C10, as stated, fails: on the program `1#2.@` (bytes 49 35 50 46 64) the
run halts having written `1 `, not `0 `; when `.` is reached the stack holds
the 1 pushed by the first instruction. -/
theorem program_skip_counterexample :
    (main [[49, 35, 50, 46, 64]] (fun _ => 0) (fun _ => none) 5).isHalted = true ∧
    (main [[49, 35, 50, 46, 64]] (fun _ => 0) (fun _ => none) 5).output = "1 " ∧
    (main [[49, 35, 50, 46, 64]] (fun _ => 0) (fun _ => none) 5).output ≠ "0 " := by
  decide

/-- C10, amended: on the program `1#2.@` the `#` causes `2` to be skipped, so
after three passes the IP is on `.` with the stack `[1]`; `.` pops that 1, the
output written is exactly `1 `, and the run halts at `@` on the fifth pass with
an empty stack, whatever the host supplies. -/
theorem program_skip_outputs (rnd : Nat → Nat) (line : Nat → Option (List Byte)) (k : Nat) :
    (∃ st3, main [[49, 35, 50, 46, 64]] rnd line 3 = .next st3 ∧
      st3.stack = [1] ∧ (st3.pcx, st3.pcy) = (3, 0) ∧ st3.output = "") ∧
    ∃ st, main [[49, 35, 50, 46, 64]] rnd line (k + 5) = .halted st ∧
      st.output = "1 " ∧ st.stack = [] ∧ (st.pcx, st.pcy) = (4, 0) :=
  ⟨⟨_, rfl, by decide, by decide, by decide⟩, ⟨_, rfl, by decide, by decide, by decide⟩⟩

/-! ## C11: a program inside a string literal -/

/-- C11, as stated, fails: on the program of the bytes 34 53 52 43 46 34 64
(a double quote, `54+.`, a double quote, `@`) the run halts on the seventh pass
having written nothing, not `9 `. -/
theorem program_string_counterexample :
    (main [[34, 53, 52, 43, 46, 34, 64]] (fun _ => 0) (fun _ => none) 7).isHalted = true ∧
    (main [[34, 53, 52, 43, 46, 34, 64]] (fun _ => 0) (fun _ => none) 7).output = "" ∧
    (main [[34, 53, 52, 43, 46, 34, 64]] (fun _ => 0) (fun _ => none) 7).output ≠ "9 " := by
  decide

/-- C11, amended: on that program the four characters between the quotes are
not executed but pushed as their codes 53, 52, 43, 46; the run writes nothing
and halts at `@` on the seventh pass with those four values on the stack,
whatever the host supplies and however much more fuel there is. -/
theorem program_string_outputs (rnd : Nat → Nat) (line : Nat → Option (List Byte)) (k : Nat) :
    ∃ st, main [[34, 53, 52, 43, 46, 34, 64]] rnd line (k + 7) = .halted st ∧
      st.output = "" ∧ st.stack = [53, 52, 43, 46] ∧ (st.pcx, st.pcy) = (6, 0) ∧
      (main [[34, 53, 52, 43, 46, 34, 64]] rnd line 6).isHalted = false :=
  ⟨_, rfl, by decide, by decide, by decide, rfl⟩

/-! ## C12 and C13: `duplicate`, discard and `swap` -/

theorem exec_duplicate (rnd : Nat) (line : Option (List Byte)) (st : State) :
    exec rnd line 58 st = .next { st with stack := duplicate st.stack } := rfl

theorem exec_discard (rnd : Nat) (line : Option (List Byte)) (st : State) :
    exec rnd line 36 st = .next { st with stack := (pop st.stack).1 } := rfl

/-- C12, as stated, fails on the empty stack: `:` turns it into `[0, 0]` and
`$` then leaves `[0]`, which is not the empty stack. -/
theorem duplicate_discard_counterexample :
    duplicate [] = [0, 0] ∧ (pop (duplicate [])).1 = [0] ∧ (pop (duplicate [])).1 ≠ [] := by
  decide

/-- C12, amended: for every non-empty stack `s`, the instruction `:` followed
by `$` (the `switch` cases 58 and 36, which run `duplicate` and then `pop`)
leaves a stack equal to `s`; on the empty stack the two leave `[0]`. -/
theorem duplicate_discard (st : State) (rnd rnd' : Nat) (line line' : Option (List Byte)) :
    ∃ st1 st2, exec rnd line 58 st = .next st1 ∧ exec rnd' line' 36 st1 = .next st2 ∧
      st2.stack = (pop (duplicate st.stack)).1 ∧
      (st.stack ≠ [] → st2.stack = st.stack) ∧
      (st.stack = [] → st2.stack = [0]) := by
  refine ⟨_, _, exec_duplicate rnd line st, exec_discard rnd' line' _, rfl, ?_, ?_⟩
  · intro h
    obtain ⟨t, a, e⟩ : ∃ t a, st.stack = t ++ [a] :=
      ⟨st.stack.dropLast, st.stack.getLast h, (List.dropLast_append_getLast h).symm⟩
    simp only [duplicate, e, pop_concat, push]
  · intro h
    simp only [h]
    rfl

/-- The amended C12 on the stacks `[3, 8]` and `[]`. -/
theorem duplicate_discard_witness :
    (∃ st1 st2, exec 0 none 58 { initial (fun _ _ => 32) with stack := [3, 8] } = .next st1 ∧
      exec 0 none 36 st1 = .next st2 ∧ st2.stack = [3, 8]) ∧
    (∃ st1 st2, exec 0 none 58 (initial (fun _ _ => 32)) = .next st1 ∧
      exec 0 none 36 st1 = .next st2 ∧ st2.stack = [0]) := by
  obtain ⟨a1, a2, h1, h2, _, h3, _⟩ :=
    duplicate_discard { initial (fun _ _ => 32) with stack := [3, 8] } 0 0 none none
  obtain ⟨b1, b2, g1, g2, _, _, g3⟩ := duplicate_discard (initial (fun _ _ => 32)) 0 0 none none
  exact ⟨⟨a1, a2, h1, h2, h3 (by decide)⟩, ⟨b1, b2, g1, g2, g3 rfl⟩⟩

/-- C13: with `b` the top of the stack, `a` the value below it and `rest` what
remains (missing values read as 0), `swap` returns `rest` with `b` and then `a`
pushed, so the two have exchanged places; `swap` applied twice returns `rest`
with `a` and then `b` pushed, the same top two values in the same order; and on
a stack of at least two elements `swap` applied twice returns the stack
itself. -/
theorem swap_exchanges (s rest : List Int) (a b : Int) (h : Operands s rest a b) :
    swap s = rest ++ [b, a] ∧ swap (swap s) = rest ++ [a, b] ∧
    Operands (swap (swap s)) rest a b ∧
    (2 ≤ s.length → swap (swap s) = s) := by
  obtain ⟨mid, h1, h2⟩ := pop_of_operands h
  have e1 : swap s = rest ++ [b, a] := by
    simp [swap, h1, h2, push]
  have e2 : swap (swap s) = rest ++ [a, b] := by
    obtain ⟨mid', g1, g2⟩ := pop_of_operands (Or.inl rfl : Operands (rest ++ [b, a]) rest b a)
    rw [e1]
    simp [swap, g1, g2, push]
  refine ⟨e1, e2, Or.inl e2, ?_⟩
  intro hl
  rw [e2]
  rcases h with h | ⟨h, _, _⟩ | ⟨h, _, _, _⟩
  · exact h.symm
  · rw [h] at hl
    simp at hl
  · rw [h] at hl
    simp at hl

/-- C13 on the stack `[5, 7, 2]`. -/
theorem swap_exchanges_witness :
    swap [5, 7, 2] = [5, 2, 7] ∧ swap (swap [5, 7, 2]) = [5, 7, 2] := by
  have h := swap_exchanges [5, 7, 2] [5] 7 2 (by decide)
  exact ⟨h.1, h.2.2.2 (by decide)⟩

/-! ## C14: going round the torus -/

theorem step_east (x y : Int) (hx : 0 ≤ x ∧ x < 80) (hy : 0 ≤ y ∧ y < 25) :
    step x y 1 0 = ((x + 1) % 80, y) := by
  unfold step wrapInt
  simp only [Prod.mk.injEq]
  constructor <;> split_ifs <;> omega

theorem step_south (x y : Int) (hx : 0 ≤ x ∧ x < 80) (hy : 0 ≤ y ∧ y < 25) :
    step x y 0 1 = (x, (y + 1) % 25) := by
  unfold step wrapInt
  simp only [Prod.mk.injEq]
  constructor <;> split_ifs <;> omega

theorem stepN_east (n : Nat) (x y : Int) (hx : 0 ≤ x ∧ x < 80) (hy : 0 ≤ y ∧ y < 25) :
    stepN 1 0 n (x, y) = ((x + n) % 80, y) := by
  induction n generalizing x with
  | zero =>
    simp only [stepN, Prod.mk.injEq, and_true]
    omega
  | succ k ih =>
    simp only [stepN, step_east x y hx hy]
    rw [ih ((x + 1) % 80) (by omega)]
    simp only [Prod.mk.injEq, and_true]
    omega

theorem stepN_south (n : Nat) (x y : Int) (hx : 0 ≤ x ∧ x < 80) (hy : 0 ≤ y ∧ y < 25) :
    stepN 0 1 n (x, y) = (x, (y + n) % 25) := by
  induction n generalizing y with
  | zero =>
    simp only [stepN, Prod.mk.injEq, true_and]
    omega
  | succ k ih =>
    simp only [stepN, step_south x y hx hy]
    rw [ih ((y + 1) % 25) (by omega)]
    simp only [Prod.mk.injEq, true_and]
    omega

/-- C14: from a position on the canvas, `n` steps east lead back to the
position exactly when 80 divides `n`, and `n` steps south exactly when 25
divides `n`; in particular 80 steps east from column 0 lead back to it. -/
theorem step_returns (x y : Int) (n : Nat) (hx : 0 ≤ x ∧ x < 80) (hy : 0 ≤ y ∧ y < 25) :
    (stepN 1 0 n (x, y) = (x, y) ↔ 80 ∣ n) ∧
    (stepN 0 1 n (x, y) = (x, y) ↔ 25 ∣ n) ∧
    stepN 1 0 80 (0, y) = (0, y) := by
  refine ⟨?_, ?_, ?_⟩
  · rw [stepN_east n x y hx hy]
    simp only [Prod.mk.injEq, and_true]
    omega
  · rw [stepN_south n x y hx hy]
    simp only [Prod.mk.injEq, true_and]
    omega
  · rw [stepN_east 80 0 y (by omega) hy]
    rfl

/-- C14 from the position (3, 4) with 160 steps. -/
theorem step_returns_witness :
    stepN 1 0 160 (3, 4) = (3, 4) ∧ stepN 0 1 160 (3, 4) ≠ (3, 4) ∧
    stepN 1 0 80 (0, 4) = (0, 4) := by
  have h := step_returns 3 4 160 (by decide) (by decide)
  exact ⟨h.1.2 (by decide), fun e => absurd (h.2.1.1 e) (by decide), h.2.2⟩

/-! ## C15 and C16: unrecognized instructions -/

theorem withStack_isInvalidCharacter (st : State) (r : Except Fault (List Int)) :
    (withStack st r).isInvalidCharacter = false := by
  cases r <;> rfl

theorem withInput_isInvalidCharacter (st : State) (r : String × Except String (List Int)) :
    (withInput st r).isInvalidCharacter = false := by
  rcases r with ⟨p, e | v⟩ <;> rfl

theorem exec_put_isInvalidCharacter (st : State) :
    (match put st.program st.stack with
      | .ok r => Outcome.next { st with program := r.1, stack := r.2 }
      | .error e => Outcome.fault e st).isInvalidCharacter = false := by
  cases put st.program st.stack <;> rfl

theorem isInvalidCharacter_next (st : State) :
    (Outcome.next st).isInvalidCharacter = false := rfl

theorem isInvalidCharacter_halted (st : State) :
    (Outcome.halted st).isInvalidCharacter = false := rfl

theorem isInvalidCharacter_failed (c : Byte) (st : State) :
    (Outcome.failed (.invalidCharacter c) st).isInvalidCharacter = true := rfl

theorem exec_isInvalidCharacter (rnd : Nat) (line : Option (List Byte)) (c : Byte)
    (st : State) :
    (exec rnd line c st).isInvalidCharacter = true ↔ c.val ∉ instructionTable := by
  unfold exec
  simp only [apply_ite Outcome.isInvalidCharacter, withStack_isInvalidCharacter,
    withInput_isInvalidCharacter, exec_put_isInvalidCharacter, isInvalidCharacter_next,
    isInvalidCharacter_halted, isInvalidCharacter_failed, ite_self]
  generalize c.val = n
  simp only [Bool.if_false_left, Bool.and_true, Bool.and_eq_true, Bool.not_eq_true',
    decide_eq_false_iff_not, instructionTable, List.mem_cons, List.mem_singleton,
    List.not_mem_nil, or_false]
  omega

theorem isInvalidCharacter_advance (o : Outcome) :
    (match o with
      | .next st => Outcome.next (advance st)
      | o => o).isInvalidCharacter = o.isInvalidCharacter := by
  cases o <;> rfl

theorem exec_invalid_eq (rnd : Nat) (line : Option (List Byte)) (c : Byte) (st : State) :
    (exec rnd line c st).isInvalidCharacter = true →
      exec rnd line c st = .failed (.invalidCharacter c)
        { st with output := st.output ++ "Invalid character: " ++ fmtQ c ++ "\n" } := by
  unfold exec
  simp only [apply_ite Outcome.isInvalidCharacter, withStack_isInvalidCharacter,
    withInput_isInvalidCharacter, exec_put_isInvalidCharacter, isInvalidCharacter_next,
    isInvalidCharacter_halted, isInvalidCharacter_failed, ite_self]
  generalize c.val = n
  simp only [Bool.if_false_left, Bool.and_true, Bool.and_eq_true, Bool.not_eq_true',
    decide_eq_false_iff_not]
  intro h
  simp only [h, if_false]

/-- C15: in Normal mode, with `c` the cell under the IP, the pass ends in the
`Invalid character` failure exactly when the code of `c` is not in the
instruction table of the specification; a pass in StringMode or in SkipOne
mode never ends in that failure. -/
theorem unrecognized_iff (st : State) (rnd : Nat) (line : Option (List Byte)) :
    (∀ c, st.isNormal → index st.program st.pcy st.pcx = .ok c →
      ((cycle rnd line st).isInvalidCharacter = true ↔ c.val ∉ instructionTable)) ∧
    (st.isStringMode → (cycle rnd line st).isInvalidCharacter = false) ∧
    (st.isSkipOne → (cycle rnd line st).isInvalidCharacter = false) := by
  refine ⟨?_, ?_, ?_⟩
  · intro c hn hc
    rw [cycle_normal rnd line st c hn.1 hn.2 hc, isInvalidCharacter_advance]
    exact exec_isInvalidCharacter rnd line c st
  · intro hs
    unfold cycle
    rw [hs.1, hs.2]
    cases index st.program st.pcy st.pcx with
    | error e => rfl
    | ok c =>
      by_cases h : c.val = 34 <;> simp [h, Outcome.isInvalidCharacter]
  · intro hs
    rw [cycle_skipping rnd line st hs]
    rfl

/-- C15 on three grids: a grid full of `x` fails in Normal mode, a grid full
of `+` does not, and the grid full of `x` does not fail in StringMode or in
SkipOne mode. -/
theorem unrecognized_iff_witness :
    (cycle 0 none (initial (fun _ _ => 120))).isInvalidCharacter = true ∧
    (cycle 0 none (initial (fun _ _ => 43))).isInvalidCharacter = false ∧
    (cycle 0 none { initial (fun _ _ => 120) with stringing := true }).isInvalidCharacter
      = false ∧
    (cycle 0 none { initial (fun _ _ => 120) with skipping := true }).isInvalidCharacter
      = false := by
  have h1 := (unrecognized_iff (initial (fun _ _ => 120)) 0 none).1 120 (by decide) (by decide)
  have h2 := (unrecognized_iff (initial (fun _ _ => 43)) 0 none).1 43 (by decide) (by decide)
  have h3 := (unrecognized_iff { initial (fun _ _ => 120) with stringing := true } 0 none).2.1
    (by decide)
  have h4 := (unrecognized_iff { initial (fun _ _ => 120) with skipping := true } 0 none).2.2
    rfl
  refine ⟨h1.2 (by decide), ?_, h3, h4⟩
  cases h : (cycle 0 none (initial (fun _ _ => 43))).isInvalidCharacter with
  | false => rfl
  | true => exact absurd (h2.1 h) (by decide)

/-- C16, as stated, fails: on a grid full of `x`, the pass at position (0, 0)
and the pass at position (5, 7) both fail on the unrecognized `x`, and they
report the same failure and write the same text, `Invalid character: ` followed
by the quoted `x` and a newline; the position is nowhere in the report. -/
theorem invalid_report_counterexample :
    (cycle 0 none (initial (fun _ _ => 120))).isInvalidCharacter = true ∧
    (cycle 0 none { initial (fun _ _ => 120) with pcx := 5, pcy := 7 }).isInvalidCharacter
      = true ∧
    (cycle 0 none (initial (fun _ _ => 120))).failure =
      (cycle 0 none { initial (fun _ _ => 120) with pcx := 5, pcy := 7 }).failure ∧
    (cycle 0 none (initial (fun _ _ => 120))).output =
      "Invalid character: " ++ String.mk [Char.ofNat 39, Char.ofNat 120, Char.ofNat 39] ++ "\n" ∧
    (cycle 0 none { initial (fun _ _ => 120) with pcx := 5, pcy := 7 }).output =
      "Invalid character: " ++ String.mk [Char.ofNat 39, Char.ofNat 120, Char.ofNat 39] ++ "\n" := by
  decide

/-- C16, amended: when a pass in Normal mode fails on an unrecognized cell
`c`, the failure reported carries the character `c`, and the text written is
`Invalid character: `, the character as a quoted Go character literal, and a
newline: the report is determined by the character alone, the position is not
in it, and no variable of the engine other than the output changes. -/
theorem invalid_report (st : State) (rnd : Nat) (line : Option (List Byte)) (c : Byte)
    (hn : st.isNormal) (hc : index st.program st.pcy st.pcx = .ok c)
    (hi : (cycle rnd line st).isInvalidCharacter = true) :
    cycle rnd line st = .failed (.invalidCharacter c)
      { st with output := st.output ++ "Invalid character: " ++ fmtQ c ++ "\n" } := by
  rw [cycle_normal rnd line st c hn.1 hn.2 hc, isInvalidCharacter_advance] at hi
  rw [cycle_normal rnd line st c hn.1 hn.2 hc, exec_invalid_eq rnd line c st hi]

/-- The amended C16 on a grid full of `x`, at position (5, 7). -/
theorem invalid_report_witness :
    cycle 0 none { initial (fun _ _ => 120) with pcx := 5, pcy := 7 } =
      .failed (.invalidCharacter 120)
        { initial (fun _ _ => 120) with
          pcx := 5, pcy := 7,
          output := "" ++ "Invalid character: " ++ fmtQ 120 ++ "\n" } :=
  invalid_report { initial (fun _ _ => 120) with pcx := 5, pcy := 7 } 0 none 120
    (by decide) (by decide) (by decide)

/-! ## C18: the instruction pointer stays on the canvas -/

theorem advance_wellFormed (st : State) (h : st.wellFormed) : (advance st).wellFormed := by
  obtain ⟨⟨hx, hy⟩, hd⟩ := h
  unfold State.cardinal at hd
  simp only [State.wellFormed, State.onCanvas, State.cardinal, advance, step, wrapInt]
  refine ⟨⟨?_, ?_⟩, hd⟩
  · split_ifs <;> omega
  · split_ifs <;> omega

theorem condition_snd (s : List Int) : (condition s).2 = 1 ∨ (condition s).2 = -1 := by
  unfold condition
  by_cases h : (pop s).2 = 0 <;> simp [h]

theorem wellFormed_next_stack (st : State) (h : st.wellFormed) (s : List Int) :
    (Outcome.next { st with stack := s }).wellFormed := h

theorem wellFormed_next_dir (st : State) (h : st.wellFormed) (dx dy : Int)
    (hd : (dx = 1 ∧ dy = 0) ∨ (dx = -1 ∧ dy = 0) ∨ (dx = 0 ∧ dy = 1) ∨ (dx = 0 ∧ dy = -1))
    (s : List Int) :
    (Outcome.next { st with dirx := dx, diry := dy, stack := s }).wellFormed :=
  ⟨h.1, hd⟩

theorem wellFormed_withStack (st : State) (h : st.wellFormed) (r : Except Fault (List Int)) :
    (withStack st r).wellFormed := by
  cases r <;> exact h

theorem wellFormed_withInput (st : State) (h : st.wellFormed)
    (r : String × Except String (List Int)) : (withInput st r).wellFormed := by
  rcases r with ⟨p, e | v⟩ <;> exact h

theorem wellFormed_put (st : State) (h : st.wellFormed) :
    (match put st.program st.stack with
      | .ok r => Outcome.next { st with program := r.1, stack := r.2 }
      | .error e => Outcome.fault e st).wellFormed := by
  cases put st.program st.stack <;> exact h

theorem exec_wellFormed (rnd : Nat) (line : Option (List Byte)) (c : Byte) (st : State)
    (h : st.wellFormed) : (exec rnd line c st).wellFormed := by
  have e1 : ∀ s, (Outcome.next { st with stack := s }).wellFormed :=
    wellFormed_next_stack st h
  have e2 : ∀ s t, (Outcome.next { st with stack := s, output := t }).wellFormed :=
    fun _ _ => h
  have e3 : ∀ b, (Outcome.next { st with skipping := b }).wellFormed := fun _ => h
  have e4 : ∀ b, (Outcome.next { st with stringing := b }).wellFormed := fun _ => h
  have e5 : ∀ t, (Outcome.failed (.invalidCharacter c) { st with output := t }).wellFormed :=
    fun _ => h
  have d1 : (Outcome.next { st with dirx := 1, diry := 0 }).wellFormed :=
    ⟨h.1, Or.inl ⟨rfl, rfl⟩⟩
  have d2 : (Outcome.next { st with dirx := -1, diry := 0 }).wellFormed :=
    ⟨h.1, Or.inr (Or.inl ⟨rfl, rfl⟩)⟩
  have d3 : (Outcome.next { st with dirx := 0, diry := 1 }).wellFormed :=
    ⟨h.1, Or.inr (Or.inr (Or.inl ⟨rfl, rfl⟩))⟩
  have d4 : (Outcome.next { st with dirx := 0, diry := -1 }).wellFormed :=
    ⟨h.1, Or.inr (Or.inr (Or.inr ⟨rfl, rfl⟩))⟩
  have c1 : (Outcome.next
      { st with diry := 0, stack := (condition st.stack).1,
                dirx := (condition st.stack).2 }).wellFormed := by
    refine ⟨h.1, ?_⟩
    rcases condition_snd st.stack with e | e
    · exact Or.inl ⟨e, rfl⟩
    · exact Or.inr (Or.inl ⟨e, rfl⟩)
  have c2 : (Outcome.next
      { st with dirx := 0, stack := (condition st.stack).1,
                diry := (condition st.stack).2 }).wellFormed := by
    refine ⟨h.1, ?_⟩
    rcases condition_snd st.stack with e | e
    · exact Or.inr (Or.inr (Or.inl ⟨rfl, e⟩))
    · exact Or.inr (Or.inr (Or.inr ⟨rfl, e⟩))
  have h0 : (Outcome.next st).wellFormed := h
  have h1 : (Outcome.halted st).wellFormed := h
  unfold exec
  simp only [apply_ite Outcome.wellFormed, wellFormed_withStack st h, wellFormed_withInput st h,
    wellFormed_put st h, e1, e2, e3, e4, e5, d1, d2, d3, d4, c1, c2, h0, h1, ite_self]

theorem cycle_wellFormed (rnd : Nat) (line : Option (List Byte)) (st : State)
    (h : st.wellFormed) : (cycle rnd line st).wellFormed := by
  cases h1 : st.skipping with
  | true =>
    rw [cycle_skipping rnd line st h1]
    exact advance_wellFormed _ h
  | false =>
    cases hc : index st.program st.pcy st.pcx with
    | error e =>
      unfold cycle
      rw [h1, hc]
      exact h
    | ok c =>
      cases h2 : st.stringing with
      | true =>
        rw [cycle_stringing rnd line st c h1 h2 hc]
        split_ifs
        · exact advance_wellFormed _ h
        · exact advance_wellFormed _ h
      | false =>
        rw [cycle_normal rnd line st c h1 h2 hc]
        have he := exec_wellFormed rnd line c st h
        cases hx : exec rnd line c st with
        | next st' =>
          rw [hx] at he
          exact advance_wellFormed _ he
        | halted st' => rw [hx] at he; exact he
        | failed f st' => rw [hx] at he; exact he
        | fault f st' => rw [hx] at he; exact he

theorem run_wellFormed (fuel : Nat) (rnd : Nat → Nat) (line : Nat → Option (List Byte))
    (st : State) (h : st.wellFormed) : (run rnd line fuel st).wellFormed := by
  induction fuel generalizing rnd line st with
  | zero => exact h
  | succ k ih =>
    have hc := cycle_wellFormed (rnd 0) (line 0) st h
    unfold run
    cases hx : cycle (rnd 0) (line 0) st with
    | next st' =>
      rw [hx] at hc
      exact ih _ _ st' hc
    | halted st' => rw [hx] at hc; exact hc
    | failed f st' => rw [hx] at hc; exact hc
    | fault f st' => rw [hx] at hc; exact hc

/-- C18: for every grid, every sequence of random choices and console inputs
and every number of passes, the state the run has reached from the initial
state has its position on the canvas, `0 ≤ x < 80` and `0 ≤ y < 25`, and a
direction among `(1,0)`, `(-1,0)`, `(0,1)`, `(0,-1)`; so exactly one of `dirx`,
`diry` is nonzero and the read `program[pcy][pcx]` succeeds. -/
theorem pointer_invariant (program : Grid) (rnd : Nat → Nat)
    (line : Nat → Option (List Byte)) (fuel : Nat) :
    (run rnd line fuel (initial program)).state.onCanvas ∧
    (run rnd line fuel (initial program)).state.cardinal ∧
    (((run rnd line fuel (initial program)).state.dirx ≠ 0 ∧
        (run rnd line fuel (initial program)).state.diry = 0) ∨
      ((run rnd line fuel (initial program)).state.dirx = 0 ∧
        (run rnd line fuel (initial program)).state.diry ≠ 0)) ∧
    ∃ c, index (run rnd line fuel (initial program)).state.program
      (run rnd line fuel (initial program)).state.pcy
      (run rnd line fuel (initial program)).state.pcx = .ok c := by
  have h0 : (initial program).wellFormed :=
    ⟨by simp [State.onCanvas, initial], Or.inl ⟨rfl, rfl⟩⟩
  have h : (run rnd line fuel (initial program)).state.wellFormed :=
    run_wellFormed fuel rnd line (initial program) h0
  generalize (run rnd line fuel (initial program)).state = st at h
  obtain ⟨hp, hd⟩ := h
  refine ⟨hp, hd, ?_, ?_⟩
  · unfold State.cardinal at hd
    omega
  · unfold State.onCanvas at hp
    unfold index
    rw [dif_pos ⟨hp.2, hp.1⟩]
    exact ⟨_, rfl⟩

/-! ## C19: which helpers can panic -/

theorem faults_error {α : Type} (e : Fault) : Faults (Except.error e : Except Fault α) :=
  ⟨e, rfl⟩

theorem not_faults_ok {α : Type} (a : α) : ¬ Faults (Except.ok a : Except Fault α) := by
  rintro ⟨e, h⟩
  cases h

theorem isFault_next (st : State) : (Outcome.next st).isFault = false := rfl

theorem isFault_halted (st : State) : (Outcome.halted st).isFault = false := rfl

theorem isFault_failed (f : Failure) (st : State) : (Outcome.failed f st).isFault = false := rfl

theorem withInput_isFault (st : State) (r : String × Except String (List Int)) :
    (withInput st r).isFault = false := by
  rcases r with ⟨p, e | v⟩ <;> rfl

theorem exec_isFault (rnd : Nat) (line : Option (List Byte)) (c : Byte) (st : State)
    (h : (exec rnd line c st).isFault = true) :
    c.val = 47 ∨ c.val = 37 ∨ c.val = 103 ∨ c.val = 112 := by
  by_contra hne
  have h1 : c.val ≠ 47 := fun e => hne (Or.inl e)
  have h2 : c.val ≠ 37 := fun e => hne (Or.inr (Or.inl e))
  have h3 : c.val ≠ 103 := fun e => hne (Or.inr (Or.inr (Or.inl e)))
  have h4 : c.val ≠ 112 := fun e => hne (Or.inr (Or.inr (Or.inr e)))
  unfold exec at h
  simp only [h1, h2, h3, h4, if_false, apply_ite Outcome.isFault, isFault_next, isFault_halted,
    isFault_failed, withInput_isFault, ite_self] at h
  exact Bool.false_ne_true h

/-- C19: with `b` the value `div` or `mod` pops first, the helper panics
exactly when `b = 0`, and then with a division by zero; with `y` the value
`get` or `put` pops first and `x` the value popped second, the helper panics
exactly when `x < 0`, `x ≥ 80`, `y < 0` or `y ≥ 25`, and then with an index out
of range.  The helpers `push`, `pop`, `add`, `sub`, `mul`, `not`, `condition`,
`duplicate`, `swap` and `compare` contain no operation that can panic and are
total functions here; accordingly the instruction switch can end in a panic
only on the cells `/`, `%`, `g` and `p`. -/
theorem helper_faults (program : Grid) (s : List Int) :
    (Faults (div s) ↔ (pop s).2 = 0) ∧
    (Faults (mod s) ↔ (pop s).2 = 0) ∧
    (Faults (get program s) ↔
      ((pop (pop s).1).2 < 0 ∨ (pop (pop s).1).2 ≥ 80 ∨ (pop s).2 < 0 ∨ (pop s).2 ≥ 25)) ∧
    (Faults (put program s) ↔
      ((pop (pop s).1).2 < 0 ∨ (pop (pop s).1).2 ≥ 80 ∨ (pop s).2 < 0 ∨ (pop s).2 ≥ 25)) ∧
    (Faults (div s) → div s = .error .divideByZero) ∧
    (Faults (mod s) → mod s = .error .divideByZero) ∧
    (Faults (get program s) → get program s = .error .indexOutOfRange) ∧
    (Faults (put program s) → put program s = .error .indexOutOfRange) ∧
    (∀ (rnd : Nat) (line : Option (List Byte)) (c : Byte) (st : State),
      (exec rnd line c st).isFault = true →
        c.val = 47 ∨ c.val = 37 ∨ c.val = 103 ∨ c.val = 112) := by
  have hdiv : (pop s).2 = 0 → div s = .error .divideByZero := by
    intro h
    simp [div, h]
  have hdiv' : (pop s).2 ≠ 0 → ¬ Faults (div s) := by
    intro h
    simp only [div, h, if_false]
    exact not_faults_ok _
  have hmod : (pop s).2 = 0 → mod s = .error .divideByZero := by
    intro h
    simp [mod, h]
  have hmod' : (pop s).2 ≠ 0 → ¬ Faults (mod s) := by
    intro h
    simp only [mod, h, if_false]
    exact not_faults_ok _
  have hget : ¬ ((0 ≤ (pop s).2 ∧ (pop s).2 < 25) ∧
      (0 ≤ (pop (pop s).1).2 ∧ (pop (pop s).1).2 < 80)) →
      get program s = .error .indexOutOfRange := by
    intro h
    simp only [get, index, dif_neg h]
  have hget' : ((0 ≤ (pop s).2 ∧ (pop s).2 < 25) ∧
      (0 ≤ (pop (pop s).1).2 ∧ (pop (pop s).1).2 < 80)) → ¬ Faults (get program s) := by
    intro h
    simp only [get, index, dif_pos h]
    exact not_faults_ok _
  have hput : ¬ ((0 ≤ (pop s).2 ∧ (pop s).2 < 25) ∧
      (0 ≤ (pop (pop s).1).2 ∧ (pop (pop s).1).2 < 80)) →
      put program s = .error .indexOutOfRange := by
    intro h
    simp only [put, assign, dif_neg h]
  have hput' : ((0 ≤ (pop s).2 ∧ (pop s).2 < 25) ∧
      (0 ≤ (pop (pop s).1).2 ∧ (pop (pop s).1).2 < 80)) → ¬ Faults (put program s) := by
    intro h
    simp only [put, assign, dif_pos h]
    exact not_faults_ok _
  refine ⟨?_, ?_, ?_, ?_, ?_, ?_, ?_, ?_, exec_isFault⟩
  · exact ⟨fun hf => by_contra fun h => hdiv' h hf, fun h => hdiv h ▸ faults_error _⟩
  · exact ⟨fun hf => by_contra fun h => hmod' h hf, fun h => hmod h ▸ faults_error _⟩
  · constructor
    · intro hf
      by_contra h
      exact hget' (by omega) hf
    · intro h
      rw [hget (by omega)]
      exact faults_error _
  · constructor
    · intro hf
      by_contra h
      exact hput' (by omega) hf
    · intro h
      rw [hput (by omega)]
      exact faults_error _
  · intro hf
    exact hdiv (by_contra fun h => hdiv' h hf)
  · intro hf
    exact hmod (by_contra fun h => hmod' h hf)
  · intro hf
    exact hget (fun h => hget' h hf)
  · intro hf
    exact hput (fun h => hput' h hf)

/-- C19 on concrete stacks: `div` and `mod` panic on `[7, 0]` and on the empty
stack and not on `[7, 2]`; `get` and `put` panic at column 80 and at row -1
and not at column 79 of row 24. -/
theorem helper_faults_witness :
    div [7, 0] = .error .divideByZero ∧ mod [] = .error .divideByZero ∧
    ¬ Faults (div [7, 2]) ∧ ¬ Faults (mod [7, 2]) ∧
    get (fun _ _ => 32) [80, 0] = .error .indexOutOfRange ∧
    put (fun _ _ => 32) [65, 0, -1] = .error .indexOutOfRange ∧
    ¬ Faults (get (fun _ _ => 32) [79, 24]) ∧ ¬ Faults (put (fun _ _ => 32) [65, 79, 24]) := by
  have a := helper_faults (fun _ _ => 32) [7, 0]
  have b := helper_faults (fun _ _ => 32) []
  have c := helper_faults (fun _ _ => 32) [7, 2]
  have d := helper_faults (fun _ _ => 32) [80, 0]
  have e := helper_faults (fun _ _ => 32) [65, 0, -1]
  have f := helper_faults (fun _ _ => 32) [79, 24]
  have g := helper_faults (fun _ _ => 32) [65, 79, 24]
  refine ⟨a.2.2.2.2.1 (a.1.2 (by decide)), b.2.2.2.2.2.1 (b.2.1.2 (by decide)),
    fun h => absurd (c.1.1 h) (by decide), fun h => absurd (c.2.1.1 h) (by decide),
    d.2.2.2.2.2.2.1 (d.2.2.1.2 (by decide)), e.2.2.2.2.2.2.2.1 (e.2.2.2.1.2 (by decide)),
    fun h => absurd (f.2.2.1.1 h) (by decide), fun h => absurd (g.2.2.2.1.1 h) (by decide)⟩

/-! ## C20: only `p` changes the grid -/

theorem state_next (st : State) : (Outcome.next st).state = st := rfl

theorem state_halted (st : State) : (Outcome.halted st).state = st := rfl

theorem state_failed (f : Failure) (st : State) : (Outcome.failed f st).state = st := rfl

theorem withStack_program (st : State) (r : Except Fault (List Int)) :
    (withStack st r).state.program = st.program := by
  cases r <;> rfl

theorem withInput_program (st : State) (r : String × Except String (List Int)) :
    (withInput st r).state.program = st.program := by
  rcases r with ⟨p, e | v⟩ <;> rfl

theorem exec_program (rnd : Nat) (line : Option (List Byte)) (c : Byte) (st : State)
    (h : c.val ≠ 112) : (exec rnd line c st).state.program = st.program := by
  unfold exec
  simp only [h, if_false, apply_ite Outcome.state, apply_ite State.program,
    withStack_program, withInput_program, state_next, state_halted, state_failed, ite_self]

theorem cycle_program (rnd : Nat) (line : Option (List Byte)) (st : State)
    (h : ¬ (st.isNormal ∧ index st.program st.pcy st.pcx = .ok 112)) :
    (cycle rnd line st).state.program = st.program := by
  cases h1 : st.skipping with
  | true =>
    rw [cycle_skipping rnd line st h1]
    rfl
  | false =>
    cases hc : index st.program st.pcy st.pcx with
    | error e =>
      unfold cycle
      rw [h1, hc]
      rfl
    | ok c =>
      cases h2 : st.stringing with
      | true =>
        rw [cycle_stringing rnd line st c h1 h2 hc]
        split_ifs <;> rfl
      | false =>
        rw [cycle_normal rnd line st c h1 h2 hc]
        have hne : c.val ≠ 112 := by
          intro e
          apply h
          refine ⟨⟨h1, h2⟩, ?_⟩
          rw [hc, show c = 112 from Fin.ext e]
        have he := exec_program rnd line c st hne
        cases hx : exec rnd line c st with
        | next st' =>
          rw [hx] at he
          exact he
        | halted st' => rw [hx] at he; exact he
        | failed f st' => rw [hx] at he; exact he
        | fault f st' => rw [hx] at he; exact he

theorem exec_put (rnd : Nat) (line : Option (List Byte)) (st : State) :
    exec rnd line 112 st =
      match put st.program st.stack with
      | .ok r => .next { st with program := r.1, stack := r.2 }
      | .error e => .fault e st := rfl

theorem put_on_canvas (program : Grid) (t : List Int)
    (h : (0 ≤ (pop t).2 ∧ (pop t).2 < 25) ∧
      (0 ≤ (pop (pop t).1).2 ∧ (pop (pop t).1).2 < 80)) :
    put program t =
      .ok (setCell program ⟨(pop t).2.toNat, by omega⟩ ⟨(pop (pop t).1).2.toNat, by omega⟩
        (toByte (pop (pop (pop t).1).1).2), (pop (pop (pop t).1).1).1) := by
  simp only [put, assign, dif_pos h]

theorem put_off_canvas (program : Grid) (t : List Int)
    (h : ¬ ((0 ≤ (pop t).2 ∧ (pop t).2 < 25) ∧
      (0 ≤ (pop (pop t).1).2 ∧ (pop (pop t).1).2 < 80))) :
    put program t = .error .indexOutOfRange := by
  simp only [put, assign, dif_neg h]

theorem index_setCell (program : Grid) (y x : Int) (b : Byte)
    (h : (0 ≤ y ∧ y < 25) ∧ (0 ≤ x ∧ x < 80)) :
    index (setCell program ⟨y.toNat, by omega⟩ ⟨x.toNat, by omega⟩ b) y x = .ok b := by
  simp only [index, dif_pos h, setCell]
  simp

theorem setCell_other (program : Grid) (y x : Int) (b : Byte)
    (h : (0 ≤ y ∧ y < 25) ∧ (0 ≤ x ∧ x < 80)) (r : Fin 25) (c : Fin 80)
    (hne : ¬ (Int.ofNat r.val = y ∧ Int.ofNat c.val = x)) :
    setCell program ⟨y.toNat, by omega⟩ ⟨x.toNat, by omega⟩ b r c = program r c := by
  simp only [setCell]
  rw [if_neg]
  rintro ⟨e1, e2⟩
  apply hne
  subst e1 e2
  simp only [Int.ofNat_eq_coe]
  omega

theorem cycle_program_cell (rnd : Nat) (line : Option (List Byte)) (st : State)
    (r : Fin 25) (c : Fin 80)
    (hne : ¬ (Int.ofNat r.val = (pop st.stack).2 ∧
      Int.ofNat c.val = (pop (pop st.stack).1).2)) :
    (cycle rnd line st).state.program r c = st.program r c := by
  by_cases hp : st.isNormal ∧ index st.program st.pcy st.pcx = .ok 112
  · obtain ⟨hn, hc⟩ := hp
    rw [cycle_normal rnd line st 112 hn.1 hn.2 hc, exec_put]
    by_cases h : (0 ≤ (pop st.stack).2 ∧ (pop st.stack).2 < 25) ∧
        (0 ≤ (pop (pop st.stack).1).2 ∧ (pop (pop st.stack).1).2 < 80)
    · rw [put_on_canvas st.program st.stack h]
      exact setCell_other st.program _ _ _ h r c hne
    · rw [put_off_canvas st.program st.stack h]
      rfl
  · rw [cycle_program rnd line st hp]

theorem cycle_put (rnd : Nat) (line : Option (List Byte)) (st : State)
    (hn : st.isNormal) (hc : index st.program st.pcy st.pcx = .ok 112)
    (h : (0 ≤ (pop st.stack).2 ∧ (pop st.stack).2 < 25) ∧
      (0 ≤ (pop (pop st.stack).1).2 ∧ (pop (pop st.stack).1).2 < 80)) :
    ∃ st', cycle rnd line st = .next st' ∧
      st'.stack = (pop (pop (pop st.stack).1).1).1 ∧
      index st'.program (pop st.stack).2 (pop (pop st.stack).1).2 =
        .ok (toByte (pop (pop (pop st.stack).1).1).2) := by
  rw [cycle_normal rnd line st 112 hn.1 hn.2 hc, exec_put, put_on_canvas st.program st.stack h]
  exact ⟨_, rfl, rfl, index_setCell st.program _ _ _ h⟩

theorem cycle_put_off_canvas (rnd : Nat) (line : Option (List Byte)) (st : State)
    (hn : st.isNormal) (hc : index st.program st.pcy st.pcx = .ok 112)
    (h : ¬ ((0 ≤ (pop st.stack).2 ∧ (pop st.stack).2 < 25) ∧
      (0 ≤ (pop (pop st.stack).1).2 ∧ (pop (pop st.stack).1).2 < 80))) :
    cycle rnd line st = .fault .indexOutOfRange st := by
  rw [cycle_normal rnd line st 112 hn.1 hn.2 hc, exec_put, put_off_canvas st.program st.stack h]

/-- C20: on every stack, short ones included (a missing operand reads as 0),
with `y` the value `put` pops first, `x` the second and `v` the third: if
`(x, y)` is on the canvas `put` returns the grid in which the cell at row `y`,
column `x` holds `byte(v)`, which is `v mod 256`, and every other cell is as it
was, together with the stack below the operands; otherwise it panics and
returns no grid.  In the loop, a pass that is not the execution of `p` in
Normal mode (any other instruction, any pass in StringMode, any pass in SkipOne
mode, and also a pass that fails, halts or panics) leaves the whole grid
unchanged; the execution of `p` in Normal mode stores `byte(v)` in the cell
`(x, y)` when that cell is on the canvas and panics with the grid untouched
otherwise; and no pass at all changes a cell other than that one. -/
theorem grid_frame (program : Grid) (s : List Int) (v x y : Int)
    (hx : 0 ≤ x ∧ x < 80) (hy : 0 ≤ y ∧ y < 25)
    (st : State) (rnd : Nat) (line : Option (List Byte)) :
    (∃ program', put program (s ++ [v, x, y]) = .ok (program', s) ∧
      index program' y x = .ok (toByte v) ∧ Int.ofNat (toByte v).val = v % 256 ∧
      ∀ (r : Fin 25) (c : Fin 80), ¬ (Int.ofNat r.val = y ∧ Int.ofNat c.val = x) →
        program' r c = program r c) ∧
    (¬ (st.isNormal ∧ index st.program st.pcy st.pcx = .ok 112) →
      (cycle rnd line st).state.program = st.program) ∧
    (∀ t : List Int,
      ((0 ≤ (pop t).2 ∧ (pop t).2 < 25) ∧
          (0 ≤ (pop (pop t).1).2 ∧ (pop (pop t).1).2 < 80) →
        ∃ program', put program t = .ok (program', (pop (pop (pop t).1).1).1) ∧
          index program' (pop t).2 (pop (pop t).1).2 =
            .ok (toByte (pop (pop (pop t).1).1).2) ∧
          Int.ofNat (toByte (pop (pop (pop t).1).1).2).val =
            (pop (pop (pop t).1).1).2 % 256 ∧
          ∀ (r : Fin 25) (c : Fin 80),
            ¬ (Int.ofNat r.val = (pop t).2 ∧ Int.ofNat c.val = (pop (pop t).1).2) →
              program' r c = program r c) ∧
      (¬ ((0 ≤ (pop t).2 ∧ (pop t).2 < 25) ∧
          (0 ≤ (pop (pop t).1).2 ∧ (pop (pop t).1).2 < 80)) →
        put program t = .error .indexOutOfRange)) ∧
    (∀ (r : Fin 25) (c : Fin 80),
      ¬ (Int.ofNat r.val = (pop st.stack).2 ∧ Int.ofNat c.val = (pop (pop st.stack).1).2) →
        (cycle rnd line st).state.program r c = st.program r c) ∧
    (st.isNormal → index st.program st.pcy st.pcx = .ok 112 →
      ((0 ≤ (pop st.stack).2 ∧ (pop st.stack).2 < 25) ∧
          (0 ≤ (pop (pop st.stack).1).2 ∧ (pop (pop st.stack).1).2 < 80)) →
      ∃ st', cycle rnd line st = .next st' ∧
        st'.stack = (pop (pop (pop st.stack).1).1).1 ∧
        index st'.program (pop st.stack).2 (pop (pop st.stack).1).2 =
          .ok (toByte (pop (pop (pop st.stack).1).1).2)) ∧
    (st.isNormal → index st.program st.pcy st.pcx = .ok 112 →
      ¬ ((0 ≤ (pop st.stack).2 ∧ (pop st.stack).2 < 25) ∧
          (0 ≤ (pop (pop st.stack).1).2 ∧ (pop (pop st.stack).1).2 < 80)) →
      cycle rnd line st = .fault .indexOutOfRange st) := by
  have hbyte : ∀ w : Int, Int.ofNat (toByte w).val = w % 256 := by
    intro w
    simp only [toByte, Int.ofNat_eq_coe]
    omega
  refine ⟨?_, cycle_program rnd line st, ?_, cycle_program_cell rnd line st,
    cycle_put rnd line st, cycle_put_off_canvas rnd line st⟩
  · obtain ⟨p1, p2⟩ := pop_three s v x y
    have hr : (0 ≤ y ∧ y < 25) ∧ (0 ≤ x ∧ x < 80) := ⟨hy, hx⟩
    refine ⟨setCell program ⟨y.toNat, by omega⟩ ⟨x.toNat, by omega⟩ (toByte v), ?_,
      index_setCell program y x _ hr, hbyte v, fun r c => setCell_other program y x _ hr r c⟩
    simp only [put, p1, p2, pop_concat, assign, dif_pos hr]
  · intro t
    refine ⟨fun h => ?_, put_off_canvas program t⟩
    exact ⟨_, put_on_canvas program t h, index_setCell program _ _ _ h, hbyte _,
      fun r c => setCell_other program _ _ _ h r c⟩

/-- C20 on the blank grid and on the program `p@`: writing 321 at column 3 of
row 4 stores 65 there and leaves the origin blank; `put` on the empty stack
writes the byte 0 at the origin and on the stack `[5]` writes it at row 5,
column 0, each leaving the neighbouring cell blank; a pass over a blank cell
leaves the grid unchanged; and the first pass of `p@`, with an empty stack,
replaces the `p` at the origin by the byte 0 and leaves the `@` beside it. -/
theorem grid_frame_witness :
    (∃ program', put (fun _ _ => 32) ([] ++ [321, 3, 4]) = .ok (program', []) ∧
      index program' 4 3 = .ok 65 ∧ program' 0 0 = 32) ∧
    (cycle 0 none (initial (fun _ _ => 32))).state.program = (fun _ _ => 32) ∧
    (∃ program', put (fun _ _ => 32) [] = .ok (program', []) ∧
      index program' 0 0 = .ok 0 ∧ program' 0 1 = 32) ∧
    (∃ program', put (fun _ _ => 32) [5] = .ok (program', []) ∧
      index program' 5 0 = .ok 0 ∧ program' 0 0 = 32) ∧
    put (fun _ _ => 32) [25] = .error .indexOutOfRange ∧
    (∃ st', cycle 0 none (initial (fun _ c => if c.val = 0 then 112 else 64)) = .next st' ∧
      st'.stack = [] ∧ index st'.program 0 0 = .ok 0) ∧
    (cycle 0 none (initial (fun _ c => if c.val = 0 then 112 else 64))).state.program 0 1
      = 64 := by
  obtain ⟨⟨g, h1, h2, _, h4⟩, h5, h6, _, _, _⟩ :=
    grid_frame (fun _ _ => 32) [] 321 3 4 (by decide) (by decide)
      (initial (fun _ _ => 32)) 0 none
  obtain ⟨_, _, _, k4, k5, _⟩ :=
    grid_frame (fun _ _ => 32) [] 321 3 4 (by decide) (by decide)
      (initial (fun _ c => if c.val = 0 then 112 else 64)) 0 none
  obtain ⟨g0, a1, a2, _, a4⟩ := (h6 []).1 (by decide)
  obtain ⟨g1, b1, b2, _, b4⟩ := (h6 [5]).1 (by decide)
  obtain ⟨st', c1, c2, c3⟩ := k5 (by decide) (by decide) (by decide)
  exact ⟨⟨g, h1, h2, h4 0 0 (by decide)⟩, h5 (by decide),
    ⟨g0, a1, a2, a4 0 1 (by decide)⟩, ⟨g1, b1, b2, b4 0 0 (by decide)⟩,
    (h6 [25]).2 (by decide), ⟨st', c1, c2, c3⟩, (k4 0 1 (by decide)).trans rfl⟩

/-! ## C17: loading the program -/

theorem assign_ok (result : Grid) (line i : Nat) (hl : line < 25) (hi : i < 80) (b : Byte) :
    assign result (Int.ofNat line) (Int.ofNat i) b = .ok (setCell result ⟨line, hl⟩ ⟨i, hi⟩ b) := by
  have h : (0 ≤ Int.ofNat line ∧ Int.ofNat line < 25) ∧ (0 ≤ Int.ofNat i ∧ Int.ofNat i < 80) := by
    simp only [Int.ofNat_eq_coe]
    omega
  unfold assign
  rw [dif_pos h]
  rfl

theorem assign_error (result : Grid) (line i : Nat) (hi : 80 ≤ i) (b : Byte) :
    assign result (Int.ofNat line) (Int.ofNat i) b = .error .indexOutOfRange := by
  have h : ¬ ((0 ≤ Int.ofNat line ∧ Int.ofNat line < 25) ∧
      (0 ≤ Int.ofNat i ∧ Int.ofNat i < 80)) := by
    simp only [Int.ofNat_eq_coe]
    omega
  unfold assign
  rw [dif_neg h]

theorem copyLine_spec (line : Nat) (hl : line < 25) (bytes : List Byte) :
    ∀ (result : Grid) (i : Nat), i ≤ 80 →
      copyLine result (Int.ofNat line) bytes (Int.ofNat i) =
        if i + bytes.length ≤ 80 then
          .ok (fun r c => if r.val = line ∧ i ≤ c.val ∧ c.val < i + bytes.length
                          then bytes.getD (c.val - i) 32 else result r c)
        else .error .indexOutOfRange := by
  induction bytes with
  | nil =>
    intro result i hi
    simp only [copyLine, List.length_nil, Nat.add_zero, if_pos hi]
    congr 1
    funext r c
    rw [if_neg]
    omega
  | cons b rest ih =>
    intro result i hi
    have hs : Int.ofNat i + 1 = Int.ofNat (i + 1) := rfl
    by_cases h80 : i < 80
    · simp only [copyLine, assign_ok result line i hl h80, hs]
      rw [ih _ (i + 1) h80]
      simp only [List.length_cons]
      by_cases hfit : i + (rest.length + 1) ≤ 80
      · rw [if_pos (by omega), if_pos hfit]
        congr 1
        funext r c
        simp only [setCell]
        by_cases hr : r.val = line
        · by_cases hc : c.val = i
          · have e1 : ¬ (i + 1 ≤ c.val) := by omega
            have e2 : r = ⟨line, hl⟩ ∧ c = ⟨i, h80⟩ := ⟨Fin.ext hr, Fin.ext hc⟩
            simp [hr, hc, e1, e2]
          · have e2 : ¬ (r = ⟨line, hl⟩ ∧ c = ⟨i, h80⟩) := fun e => hc (congrArg Fin.val e.2)
            by_cases hlo : i + 1 ≤ c.val
            · by_cases hhi : c.val < i + 1 + rest.length
              · have e3 : c.val - i = (c.val - (i + 1)) + 1 := by omega
                have e4 : i ≤ c.val ∧ c.val < i + (rest.length + 1) := by omega
                simp [hr, e2, hlo, hhi, e3, e4]
              · have e4 : ¬ (c.val < i + (rest.length + 1)) := by omega
                simp [hr, e2, hhi, e4]
            · have e4 : ¬ (i ≤ c.val) := by omega
              simp [hr, e2, hlo, e4]
        · have e2 : ¬ (r = ⟨line, hl⟩ ∧ c = ⟨i, h80⟩) := fun e => hr (congrArg Fin.val e.1)
          simp [hr, e2]
      · rw [if_neg (by omega), if_neg hfit]
    · have e : ¬ (i + (b :: rest).length ≤ 80) := by
        simp only [List.length_cons]
        omega
      simp only [copyLine, assign_error result line i (by omega), if_neg e]


theorem copyLine_zero (line : Nat) (hl : line < 25) (bytes : List Byte) (result : Grid) :
    copyLine result (Int.ofNat line) bytes 0 =
      if bytes.length ≤ 80 then
        .ok (fun r c => if r.val = line ∧ c.val < bytes.length
                        then bytes.getD c.val 32 else result r c)
      else .error .indexOutOfRange := by
  have h := copyLine_spec line hl bytes result 0 (by omega)
  simp only [Nat.zero_add, Nat.zero_le, true_and, Nat.sub_zero] at h
  exact h

theorem padLine_copy (line : Nat) (bytes : List Byte) (result : Grid) :
    padLine (fun r c => if r.val = line ∧ c.val < bytes.length
                        then bytes.getD c.val 32 else result r c) line bytes.length =
      fun r c => if r.val = line then bytes.getD c.val 32 else result r c := by
  funext r c
  simp only [padLine]
  by_cases hr : r.val = line
  · by_cases hc : c.val < bytes.length
    · simp [hr, hc, Nat.not_le.mpr hc]
    · have hle : bytes.length ≤ c.val := by omega
      simp [hr, hle, List.getElem?_eq_none hle]
  · simp [hr]

theorem scanLoop_spec (lines : List (List Byte)) (line : Nat) (result : Grid)
    (hl : line < 25) :
    scanLoop lines line result =
      if ∀ l ∈ lines.take (25 - line), l.length ≤ 80 then
        Except.ok ((fun r c => if line ≤ r.val ∧ r.val < line + lines.length
                        then (lines.getD (r.val - line) []).getD c.val 32 else result r c),
             min (line + lines.length) 25)
      else Except.error Fault.indexOutOfRange := by
  induction lines generalizing line result with
  | nil =>
    simp only [scanLoop, List.take_nil, List.not_mem_nil, false_implies, implies_true,
      if_true, List.length_nil, Nat.add_zero]
    congr 1
    refine Prod.ext ?_ ?_
    · funext r c
      simp only []
      rw [if_neg]
      omega
    · simp only []
      omega
  | cons bytes rest ih =>
    have e25 : 25 - line = (24 - line) + 1 := by omega
    have hall : (∀ l ∈ (bytes :: rest).take (25 - line), l.length ≤ 80) ↔
        (bytes.length ≤ 80 ∧ ∀ l ∈ rest.take (24 - line), l.length ≤ 80) := by
      rw [e25, List.take_succ_cons]
      simp only [List.mem_cons, forall_eq_or_imp]
    simp only [scanLoop, copyLine_zero line hl bytes result]
    by_cases hb : bytes.length ≤ 80
    · simp only [if_pos hb, padLine_copy]
      by_cases h24 : line + 1 ≥ 25
      · have hl24 : line = 24 := by omega
        subst hl24
        have hall' : ∀ l ∈ (bytes :: rest).take (25 - 24), l.length ≤ 80 := by
          rw [hall]
          exact ⟨hb, by simp⟩
        rw [if_pos h24, if_pos hall']
        congr 1
        refine Prod.ext ?_ ?_
        · funext r c
          have hr := r.isLt
          simp only [List.length_cons]
          by_cases hr24 : r.val = 24
          · have e : 24 ≤ r.val ∧ r.val < 24 + (rest.length + 1) := by omega
            simp [hr24]
          · have e : ¬ (24 ≤ r.val ∧ r.val < 24 + (rest.length + 1)) := by omega
            simp [hr24, e]
        · simp only [List.length_cons]
          omega
      · rw [if_neg h24, ih (line + 1) _ (by omega)]
        have e24 : 25 - (line + 1) = 24 - line := by omega
        rw [e24]
        by_cases hrest : ∀ l ∈ rest.take (24 - line), l.length ≤ 80
        · rw [if_pos hrest, if_pos (hall.mpr ⟨hb, hrest⟩)]
          congr 1
          refine Prod.ext ?_ ?_
          · funext r c
            simp only [List.length_cons]
            by_cases h1 : r.val = line
            · have e : line ≤ r.val ∧ r.val < line + (rest.length + 1) := by omega
              have e' : ¬ (line + 1 ≤ r.val ∧ r.val < line + 1 + rest.length) := by omega
              simp [h1]
            · by_cases h2 : line + 1 ≤ r.val ∧ r.val < line + 1 + rest.length
              · have e : line ≤ r.val ∧ r.val < line + (rest.length + 1) := by omega
                have e3 : r.val - line = (r.val - (line + 1)) + 1 := by omega
                simp [h2, e, e3]
              · have e : ¬ (line ≤ r.val ∧ r.val < line + (rest.length + 1)) := by omega
                simp [h1, h2, e]
          · simp only [List.length_cons]
            omega
        · rw [if_neg hrest, if_neg (fun h => hrest (hall.mp h).2)]
    · simp only [if_neg hb]
      rw [if_neg (fun h => hb (hall.mp h).1)]

/-- Function `readFile` in closed form: when each of the first 25 lines has at
most 80 bytes it returns the grid of the specification, and otherwise it
panics with an index out of range. -/
theorem readFile_spec (lines : List (List Byte)) :
    readFile lines =
      if ∀ l ∈ lines.take 25, l.length ≤ 80 then .ok (specGrid lines)
      else .error .indexOutOfRange := by
  unfold readFile
  rw [scanLoop_spec lines 0 _ (by omega)]
  simp only [Nat.sub_zero]
  by_cases h : ∀ l ∈ lines.take 25, l.length ≤ 80
  · rw [if_pos h, if_pos h]
    simp only []
    congr 1
    funext r c
    simp only [fillRows, specGrid, Nat.zero_add, Nat.zero_le, true_and, Nat.sub_zero]
    have hr := r.isLt
    by_cases hlen : r.val < lines.length
    · have e : ¬ (min lines.length 25 ≤ r.val) := by omega
      simp [hlen, e]
    · have e : min lines.length 25 ≤ r.val := by omega
      have e2 : lines.length ≤ r.val := by omega
      simp [e, List.getElem?_eq_none e2]
  · rw [if_neg h, if_neg h]

/-- C17 fails on the code: a first line of 81 bytes (here 81 letters `A`)
makes `readFile` panic with an index out of range at `result[0][80]`, instead
of dropping the byte at column 80; a line of exactly 80 bytes loads. -/
theorem readFile_long_line_panics :
    readFile [List.replicate 81 65] = .error .indexOutOfRange ∧
    ∃ program, readFile [List.replicate 80 65] = .ok program :=
  ⟨rfl, _, rfl⟩

end Befunge
